import Mathlib

/-!
# picocoin: peer address book and connection engine

A shallow embedding of `src/peerman.c` and `src/net.c`.

* byte buffers are `List Nat` (one element per `unsigned char`);
* C structs become Lean structures with the C field names;
* functions that mutate through a pointer return the new value;
* GLib containers (`GList`, `GHashTable` used as a set) are lists.
-/

namespace Picocoin

/-- A run of `unsigned char`. -/
abbrev Bytes := List Nat

/-! ## Address records and the peer manager (`peerman.c`) -/

/-- The C `struct bp_address`: last-seen time, service bits, 16-byte IP, port. -/
structure bp_address where
  nTime : Nat
  nServices : Nat
  ip : Bytes
  port : Nat
deriving DecidableEq, Repr

/-- `addr_equal`: `memcmp(a, b, 16) == 0`. -/
def addr_equal (a b : Bytes) : Bool :=
  decide (a.take 16 = b.take 16)

/-- `g_hash_table_lookup_extended` on a table used as a set whose key
equality is `addr_equal`. -/
def g_hash_table_lookup_extended (m : List Bytes) (key : Bytes) : Bool :=
  m.any (fun k => addr_equal k key)

/-- `g_hash_table_insert` on a set: an equal key already stored is kept,
otherwise the key is added. -/
def g_hash_table_insert (m : List Bytes) (key : Bytes) : List Bytes :=
  if g_hash_table_lookup_extended m key then m else m ++ [key]

/-- `g_hash_table_remove`: drops the stored key equal to `key`. -/
def g_hash_table_remove (m : List Bytes) (key : Bytes) : List Bytes :=
  m.filter (fun k => !addr_equal k key)

/-- `g_hash_table_size`. -/
def g_hash_table_size (m : List Bytes) : Nat := m.length

/-- The C `struct peer_manager`: the set `map_addr` and the list `addrlist`. -/
structure peer_manager where
  map_addr : List Bytes
  addrlist : List bp_address
deriving DecidableEq, Repr

/-- `peerman_new`: `calloc` plus a fresh hash table. -/
def peerman_new : peer_manager :=
  { map_addr := [], addrlist := [] }

/-- `__peerman_add`: `g_list_prepend` or `g_list_append`, then the set insert. -/
def __peerman_add (peers : peer_manager) (addr : bp_address)
    (prepend_front : Bool) : peer_manager :=
  { addrlist := if prepend_front then addr :: peers.addrlist
                else peers.addrlist ++ [addr],
    map_addr := g_hash_table_insert peers.map_addr addr.ip }

/-- `peerman_has_addr`. -/
def peerman_has_addr (peers : peer_manager) (ip : Bytes) : Bool :=
  g_hash_table_lookup_extended peers.map_addr ip

/-- `peerman_pop`: the returned pointer (`none` for `NULL`) and the new book. -/
def peerman_pop (peers : peer_manager) : Option bp_address × peer_manager :=
  match peers.addrlist with
  | [] => (none, peers)
  | addr :: rest =>
    (some addr, { addrlist := rest,
                  map_addr := g_hash_table_remove peers.map_addr addr.ip })

/-- `peerman_add`: returns early when the IP is present, else copies the
address and calls `__peerman_add(peers, addr, !known_working)`. -/
def peerman_add (peers : peer_manager) (addr_in : bp_address)
    (known_working : Bool) : peer_manager :=
  if peerman_has_addr peers addr_in.ip then peers
  else __peerman_add peers addr_in (!known_working)

/-- A finite sequence of `peerman_add` calls, applied left to right. -/
def peerman_add_calls (peers : peer_manager)
    (calls : List (bp_address × Bool)) : peer_manager :=
  calls.foldl (fun p c => peerman_add p c.1 c.2) peers

/-- No two entries of the sequence have the same 16-byte IP. -/
def distinct_ips (l : List bp_address) : Prop :=
  l.Pairwise (fun a b => addr_equal a.ip b.ip = false)

/-- Every entry of the sequence has its IP in the set, and every key of the
set is the IP of some entry. -/
def in_sync (p : peer_manager) : Prop :=
  ∀ key : Bytes, g_hash_table_lookup_extended p.map_addr key = true ↔
    ∃ e ∈ p.addrlist, addr_equal e.ip key = true

/-! ## The ccoin library boundary

`peerman.c` and `net.c` call into the ccoin library (`ccoin/message.h`,
`ccoin/core.h`, `ccoin/mbr.h`, `ccoin/coredefs.h`) and read two globals
(`chain`, `instance_nonce`).  Their constants and functions are the fields
of `ccoin`; every function of the two source files takes the library as its
first argument. -/

/-- A C string literal as its bytes (without the terminating NUL). -/
def cstr (s : String) : Bytes := s.toList.map Char.toNat

/-- `strncmp(a, b, n)`: reading past the end of a list reads a NUL. -/
def strncmp (a b : Bytes) : Nat → Int
  | 0 => 0
  | n + 1 =>
    let ca := a.headD 0
    let cb := b.headD 0
    if ca ≠ cb then (ca : Int) - (cb : Int)
    else if ca = 0 then 0
    else strncmp a.tail b.tail n

/-- `memcmp(a, b, n) == 0`. -/
def memcmp_eq (a b : Bytes) (n : Nat) : Bool :=
  decide (a.take n = b.take n)

/-- The C `struct p2p_message_hdr`. -/
structure p2p_message_hdr where
  netmagic : Bytes
  command : Bytes
  data_len : Nat
  hash : Bytes
deriving DecidableEq, Repr

/-- The C `struct p2p_message`; `data = []` stands for a `NULL` body. -/
structure p2p_message where
  hdr : p2p_message_hdr
  data : Bytes
deriving DecidableEq, Repr

/-- The fields of the C `struct msg_version` that `net.c` reads or writes. -/
structure msg_version where
  nVersion : Nat
  nServices : Nat
  nTime : Nat
  nonce : Nat
  strSubVer : Bytes
  nStartingHeight : Nat
deriving DecidableEq, Repr

/-- One call of `mbr_read`: a message and the unread rest of the buffer,
end of input, or a framing error (`mbr.error`). -/
inductive mbr_step where
  | msg (m : p2p_message) (rest : Bytes)
  | eof
  | error
deriving DecidableEq, Repr

/-- Constants, globals and functions of the ccoin library used by the two
source files. -/
structure ccoin where
  P2P_HDR_SZ : Nat
  PROTO_VERSION : Nat
  CADDR_TIME_VERSION : Nat
  NODE_NETWORK : Nat
  /-- The value of `sizeof(struct bp_address)`. -/
  sizeof_bp_address : Nat
  /-- The global `chain->netmagic`. -/
  netmagic : Bytes
  /-- The global `instance_nonce`. -/
  instance_nonce : Nat
  /-- Builds a wire message from magic, command and payload; `none` is `NULL`. -/
  message_str : Bytes → Bytes → Bytes → Option Bytes
  parse_message_hdr : Bytes → p2p_message_hdr
  message_valid : p2p_message → Bool
  deser_msg_version : Bytes → Option msg_version
  deser_msg_addr : Nat → Bytes → Option (List bp_address)
  ser_bp_addr : Nat → bp_address → Bytes
  deser_bp_addr : Nat → Bytes → Option bp_address
  mbr_read : Bytes → mbr_step

/-! ## Persistence (`peerman.c`) -/

/-- `peerman_read_rec`: `none` is the `false` return. -/
def peerman_read_rec (E : ccoin) (peers : peer_manager) (msg : p2p_message) :
    Option peer_manager :=
  if strncmp msg.hdr.command (cstr "CAddress") 12 ≠ 0 ∨
      msg.hdr.data_len ≠ E.sizeof_bp_address then none
  else
    match E.deser_bp_addr E.CADDR_TIME_VERSION (msg.data.take msg.hdr.data_len) with
    | none => none
    | some addr =>
      if !peerman_has_addr peers addr.ip then some (__peerman_add peers addr false)
      else some peers

/-- The `while (mbr_read(&mbr))` loop of `peerman_read`.  The outer `none`
means the iteration bound was used up; `some none` is the error exit
(`mbr.error`), `some (some p)` the book at end of input. -/
def peerman_read_loop (E : ccoin) :
    Nat → Bytes → peer_manager → Option (Option peer_manager)
  | 0, _, _ => none
  | fuel + 1, buf, peers =>
    match E.mbr_read buf with
    | .eof => some (some peers)
    | .error => some none
    | .msg m rest =>
      match peerman_read_rec E peers m with
      | none => some none
      | some peers1 => peerman_read_loop E fuel rest peers1

/-- `peerman_read` on the content of the peers file; `file = none` when the
setting is missing or the file cannot be read.  `some none` is `NULL`. -/
def peerman_read (E : ccoin) (file : Option Bytes) : Option (Option peer_manager) :=
  match file with
  | none => some none
  | some data => peerman_read_loop E (data.length + 1) data peerman_new

/-- `peerman_seed` on the list returned by `bu_dns_seed_addrs`. -/
def peerman_seed (seedlist : List bp_address) : peer_manager :=
  seedlist.foldl (fun p a => __peerman_add p a true) peerman_new

/-- The loop of `ser_peerman` over `addrlist`; `none` when `message_str`
returns `NULL`, which the loop dereferences. -/
def ser_peerman_loop (E : ccoin) : List bp_address → Bytes → Option Bytes
  | [], s => some s
  | addr :: tmp, s =>
    match E.message_str E.netmagic (cstr "CAddress")
        (E.ser_bp_addr E.CADDR_TIME_VERSION addr) with
    | none => none
    | some rec => ser_peerman_loop E tmp (s ++ rec)

/-- `ser_peerman`. -/
def ser_peerman (E : ccoin) (peers : peer_manager) : Option Bytes :=
  ser_peerman_loop E peers.addrlist []

/-! ## Connections (`net.c`) -/

/-- Where `conn->msg_p` points: into `hdrbuf`, into `msg.data`, or `NULL`. -/
inductive msg_ptr where
  | null
  | hdrbuf (off : Nat)
  | data (off : Nat)
deriving DecidableEq, Repr

/-- The C `struct nc_conn`.  `ev` and `write_ev` record whether the event is
registered; a queued `struct buffer` is its bytes, `len` being their number. -/
structure nc_conn where
  fd : Int
  addr : bp_address
  ipv4 : Bool
  connected : Bool
  ev : Bool
  write_ev : Bool
  write_q : List Bytes
  write_partial : Nat
  msg : p2p_message
  msg_p : msg_ptr
  expected : Nat
  reading_hdr : Bool
  hdrbuf : Bytes
  seen_version : Bool
  seen_verack : Bool
  protover : Nat
deriving DecidableEq, Repr

/-- How registering an event with libevent ends: `event_new` and `event_add`
both succeed, `event_new` returns `NULL`, or `event_add` returns non-zero. -/
inductive ev_outcome where
  | ok
  | new_failed
  | add_failed
deriving DecidableEq, Repr

/-- What a connection handler reaches outside its `struct nc_conn`:
`conn->nci->peers`, the bytes the socket has accepted (`tx`), the bytes
waiting to be read from it (`rx`), the list of `nc_conn_send` calls made so
far (command and payload), and how the coming event registrations on
`conn->nci->eb` end, one entry per registration (`evreg`; when the list is
used up the remaining registrations succeed). -/
structure net_world where
  peers : peer_manager
  tx : Bytes
  rx : Bytes
  sends : List (Bytes × Bytes)
  evreg : List ev_outcome := []
deriving DecidableEq, Repr

/-- The outcome of the next event registration, and the world after it. -/
def next_evreg (w : net_world) : ev_outcome × net_world :=
  match w.evreg with
  | [] => (.ok, w)
  | o :: rest => (o, { w with evreg := rest })

/-- The result of `write(2)` or `writev(2)`: a fatal error, `EAGAIN` or
`EWOULDBLOCK`, or the number of bytes accepted. -/
inductive sys_write where
  | error
  | again
  | wrote (n : Nat)
deriving DecidableEq, Repr

/-- The C `struct iovec`: the bytes from `iov_base` on, and `iov_len`. -/
structure iovec where
  iov_base : Bytes
  iov_len : Nat
deriving DecidableEq, Repr

/-- `nc_conn_read_enable`: nothing to do when the event is registered;
otherwise `event_new` and `event_add`, and when either fails `conn->ev` is
`NULL` and the result is false. -/
def nc_conn_read_enable (conn : nc_conn) (w : net_world) : Bool × nc_conn × net_world :=
  if conn.ev then (true, conn, w)
  else
    match (next_evreg w).1 with
    | .ok => (true, { conn with ev := true }, (next_evreg w).2)
    | .new_failed => (false, { conn with ev := false }, (next_evreg w).2)
    | .add_failed => (false, { conn with ev := false }, (next_evreg w).2)

/-- `nc_conn_read_disable`. -/
def nc_conn_read_disable (conn : nc_conn) : nc_conn := { conn with ev := false }

/-- `nc_conn_write_enable`: nothing to do when the event is registered;
otherwise `event_new` and `event_add`, and when either fails
`conn->write_ev` is `NULL` and the result is false. -/
def nc_conn_write_enable (conn : nc_conn) (w : net_world) : Bool × nc_conn × net_world :=
  if conn.write_ev then (true, conn, w)
  else
    match (next_evreg w).1 with
    | .ok => (true, { conn with write_ev := true }, (next_evreg w).2)
    | .new_failed => (false, { conn with write_ev := false }, (next_evreg w).2)
    | .add_failed => (false, { conn with write_ev := false }, (next_evreg w).2)

/-- `nc_conn_write_disable`. -/
def nc_conn_write_disable (conn : nc_conn) : nc_conn := { conn with write_ev := false }

/-- The loop body of `nc_conn_build_iov` for the buffers after the first. -/
def build_iov_rest (q : List Bytes) : List iovec :=
  q.map (fun buf => { iov_base := buf, iov_len := buf.length })

/-- `nc_conn_build_iov`: one `iovec` per queued buffer, the first advanced
by `partial` (`iov_len -= partial` in `size_t`). -/
def nc_conn_build_iov (write_q : List Bytes) (partial_ : Nat) : List iovec :=
  match write_q with
  | [] => []
  | buf :: rest =>
    { iov_base := buf.drop partial_,
      iov_len := (buf.length + 2 ^ 64 - partial_ % 2 ^ 64) % 2 ^ 64 } :: build_iov_rest rest

/-- The bytes a `writev` over the vector offers to the socket, in order. -/
def iov_bytes (iov : List iovec) : Bytes :=
  (iov.map (fun v => v.iov_base.take v.iov_len)).flatten

/-- The loop of `nc_conn_written` on `(write_q, write_partial, bytes)`;
`none` when `bytes > 0` meets an empty queue (`tmp->data` on `NULL`).
`left` is an `unsigned int`. -/
def nc_conn_written_loop : List Bytes → Nat → Nat → Option (List Bytes × Nat)
  | q, partial_, 0 => some (q, partial_)
  | [], _, _ + 1 => none
  | buf :: rest, partial_, bytes + 1 =>
    let left := (buf.length + 2 ^ 32 - partial_ % 2 ^ 32) % 2 ^ 32
    if bytes + 1 ≥ left then nc_conn_written_loop rest 0 (bytes + 1 - left)
    else some (buf :: rest, (partial_ + (bytes + 1)) % 2 ^ 32)

/-- `nc_conn_written`. -/
def nc_conn_written (conn : nc_conn) (bytes : Nat) : Option nc_conn :=
  match nc_conn_written_loop conn.write_q conn.write_partial bytes with
  | none => none
  | some (q, p) => some { conn with write_q := q, write_partial := p }

/-- The state after a handler ran: the connection (`none` once
`nc_conn_free` has run) and the world. -/
abbrev conn_result := Option nc_conn × net_world

/-- `nc_conn_write_evt`, given the result of `writev`.  The outer `none` is
the `NULL` dereference inside `nc_conn_written`.  The result of
`nc_conn_read_enable` is not looked at. -/
def nc_conn_write_evt (conn : nc_conn) (w : net_world) (wrc : sys_write) :
    Option conn_result :=
  let iov := nc_conn_build_iov conn.write_q conn.write_partial
  match wrc with
  | .error => some (none, w)
  | .again => some (some conn, w)
  | .wrote n =>
    let w1 : net_world := { w with tx := w.tx ++ (iov_bytes iov).take n }
    match nc_conn_written conn n with
    | none => none
    | some conn1 =>
      if conn1.write_q.isEmpty then
        some (some (nc_conn_read_enable (nc_conn_write_disable conn1) w1).2.1,
          (nc_conn_read_enable (nc_conn_write_disable conn1) w1).2.2)
      else some (some conn1, w1)

/-- The label `out_wrstart` of `nc_conn_send`: `nc_conn_read_disable`, then
`nc_conn_write_enable`, whose result is not looked at. -/
def out_wrstart (conn : nc_conn) (w : net_world) : nc_conn × net_world :=
  (nc_conn_write_enable (nc_conn_read_disable conn) w).2

/-- `nc_conn_send`, given the result of the optimistic `write`; the `Bool`
is the return value. -/
def nc_conn_send (E : ccoin) (conn : nc_conn) (w : net_world)
    (command data : Bytes) (wrc : sys_write) : Bool × nc_conn × net_world :=
  let w0 : net_world := { w with sends := w.sends ++ [(command, data)] }
  match E.message_str E.netmagic command data with
  | none => (false, conn, w0)
  | some buf =>
    if !conn.write_q.isEmpty then
      (true, { conn with write_q := conn.write_q ++ [buf] }, w0)
    else
      match wrc with
      | .error => (false, conn, w0)
      | .again =>
        (true, out_wrstart { conn with write_q := conn.write_q ++ [buf] } w0)
      | .wrote n =>
        let w1 : net_world := { w0 with tx := w0.tx ++ buf.take n }
        if n = buf.length then (true, conn, w1)
        else
          (true, out_wrstart { conn with write_q := conn.write_q ++ [buf],
                                         write_partial := n % 2 ^ 32 } w1)

/-- The unsent stream: all queued bytes but the first `write_partial` of the
first buffer. -/
def unsent (conn : nc_conn) : Bytes :=
  conn.write_q.flatten.drop conn.write_partial

/-- `nc_msg_version`. -/
def nc_msg_version (E : ccoin) (conn : nc_conn) (w : net_world) (wrc : sys_write) :
    Bool × nc_conn × net_world :=
  if conn.seen_version then (false, conn, w)
  else
    let conn1 : nc_conn := { conn with seen_version := true }
    match E.deser_msg_version (conn.msg.data.take conn.msg.hdr.data_len) with
    | none => (false, conn1, w)
    | some mv =>
      if mv.nServices &&& E.NODE_NETWORK = 0 then (false, conn1, w)
      else if mv.nonce = E.instance_nonce then (false, conn1, w)
      else
        let conn2 : nc_conn := { conn1 with protover := min mv.nVersion E.PROTO_VERSION }
        nc_conn_send E conn2 w (cstr "verack") [] wrc

/-- `nc_msg_addr`. -/
def nc_msg_addr (E : ccoin) (conn : nc_conn) (w : net_world) :
    Bool × nc_conn × net_world :=
  match E.deser_msg_addr conn.protover (conn.msg.data.take conn.msg.hdr.data_len) with
  | none => (false, conn, w)
  | some addrs =>
    if conn.protover < E.CADDR_TIME_VERSION then (true, conn, w)
    else
      (true, conn,
        { w with peers := addrs.foldl (fun p a => peerman_add p a false) w.peers })

/-- `nc_msg_verack`. -/
def nc_msg_verack (E : ccoin) (conn : nc_conn) (w : net_world) (wrc : sys_write) :
    Bool × nc_conn × net_world :=
  if conn.seen_verack then (false, conn, w)
  else
    let conn1 : nc_conn := { conn with seen_verack := true }
    let w1 : net_world := { w with peers := peerman_add w.peers conn.addr true }
    if conn1.protover ≥ E.CADDR_TIME_VERSION then
      nc_conn_send E conn1 w1 (cstr "getaddr") [] wrc
    else (true, conn1, w1)

/-- `nc_conn_message`. -/
def nc_conn_message (E : ccoin) (conn : nc_conn) (w : net_world) (wrc : sys_write) :
    Bool × nc_conn × net_world :=
  if !memcmp_eq conn.msg.hdr.netmagic E.netmagic 4 then (false, conn, w)
  else if strncmp conn.msg.hdr.command (cstr "version") 12 = 0 then
    nc_msg_version E conn w wrc
  else if !conn.seen_version then (false, conn, w)
  else if strncmp conn.msg.hdr.command (cstr "verack") 12 = 0 then
    nc_msg_verack E conn w wrc
  else if !conn.seen_verack then (false, conn, w)
  else if strncmp conn.msg.hdr.command (cstr "addr") 12 = 0 then
    nc_msg_addr E conn w
  else (true, conn, w)

/-- `nc_conn_got_header`: `none` is `nc_conn_free`; `malloc(data_len)` gives
`data_len` bytes. -/
def nc_conn_got_header (E : ccoin) (conn : nc_conn) : Option nc_conn :=
  let hdr := E.parse_message_hdr conn.hdrbuf
  let data_len := hdr.data_len
  if data_len > 16 * 1024 * 1024 then none
  else
    some { conn with msg := { hdr := hdr, data := List.replicate data_len 0 },
                     msg_p := .data 0,
                     expected := data_len,
                     reading_hdr := false }

/-- `nc_conn_got_msg`. -/
def nc_conn_got_msg (E : ccoin) (conn : nc_conn) (w : net_world) (wrc : sys_write) :
    conn_result :=
  if !E.message_valid conn.msg then (none, w)
  else
    match nc_conn_message E conn w wrc with
    | (false, _, w1) => (none, w1)
    | (true, conn1, w1) =>
      (some { conn1 with msg := { conn1.msg with data := [] },
                         msg_p := .hdrbuf 0,
                         expected := E.P2P_HDR_SZ,
                         reading_hdr := true }, w1)

/-- Overwrites `buf` from offset `off` with `bs`. -/
def write_at (buf : Bytes) (off : Nat) (bs : Bytes) : Bytes :=
  buf.take off ++ bs ++ buf.drop (off + bs.length)

/-- The store of `read` through `conn->msg_p`, and `conn->msg_p += rrc`. -/
def store_read (conn : nc_conn) (bs : Bytes) : nc_conn :=
  match conn.msg_p with
  | .null => conn
  | .hdrbuf off =>
    { conn with hdrbuf := write_at conn.hdrbuf off bs,
                msg_p := .hdrbuf (off + bs.length) }
  | .data off =>
    { conn with msg := { conn.msg with data := write_at conn.msg.data off bs },
                msg_p := .data (off + bs.length) }

/-- `nc_conn_read_evt`.  `rd = none`: `read` fails; `rd = some n`: the kernel
hands over at most `n` of the waiting bytes `w.rx`, and never more than the
`conn->expected` asked for.  `wrc` is the result of the write a dispatched
handler may attempt. -/
def nc_conn_read_evt (E : ccoin) (conn : nc_conn) (w : net_world)
    (rd : Option Nat) (wrc : sys_write) : conn_result :=
  match rd with
  | none => (none, w)
  | some n =>
    let bs := (w.rx.take conn.expected).take n
    let rrc := bs.length
    if rrc = 0 then (none, w)
    else
      let w1 : net_world := { w with rx := w.rx.drop rrc }
      let conn1 : nc_conn := { store_read conn bs with expected := conn.expected - rrc }
      if conn1.expected = 0 then
        if conn1.reading_hdr then (nc_conn_got_header E conn1, w1)
        else nc_conn_got_msg E conn1 w1 wrc
      else (some conn1, w1)

/-- Read events fired one after another, one `(rd, wrc)` pair each, until
the list ends or the connection is freed. -/
def read_evts (E : ccoin) : conn_result → List (Option Nat × sys_write) → conn_result
  | r, [] => r
  | (none, w), _ => (none, w)
  | (some conn, w), (rd, wrc) :: evts =>
    read_evts E (nc_conn_read_evt E conn w rd wrc) evts

/-- The connection as `nc_conn_evt_connected` leaves it when it succeeds:
`calloc`-zeroed by `nc_conn_new`, connected, reading a header. -/
def nc_conn_connected (E : ccoin) (addr : bp_address) (fd : Int) : nc_conn :=
  { fd := fd, addr := addr, ipv4 := false, connected := true,
    ev := true, write_ev := false, write_q := [], write_partial := 0,
    msg := { hdr := { netmagic := [], command := [], data_len := 0, hash := [] },
             data := [] },
    msg_p := .hdrbuf 0, expected := E.P2P_HDR_SZ, reading_hdr := true,
    hdrbuf := List.replicate E.P2P_HDR_SZ 0,
    seen_version := false, seen_verack := false, protover := 0 }

/-! ## The book invariant -/

/-- No two keys of the set are equal under `addr_equal`. -/
def keys_distinct (m : List Bytes) : Prop :=
  m.Pairwise (fun a b => addr_equal a b = false)

/-- The set and the sequence are in sync: an IP is in the set exactly when
some entry has it, no IP occurs in two entries, no key is stored twice, and
the set's size is the sequence's length. -/
def book_ok (p : peer_manager) : Prop :=
  in_sync p ∧ distinct_ips p.addrlist ∧ keys_distinct p.map_addr ∧
    g_hash_table_size p.map_addr = p.addrlist.length

/-- A call that changes the book after it was built. -/
inductive book_op where
  | add (addr : bp_address) (known_working : Bool)
  | pop
deriving DecidableEq, Repr

/-- A sequence of `peerman_add` and `peerman_pop` calls, left to right. -/
def apply_ops (p : peer_manager) (ops : List book_op) : peer_manager :=
  ops.foldl (fun q op =>
    match op with
    | .add a kw => peerman_add q a kw
    | .pop => (peerman_pop q).2) p

/-! ## Reading a record stream, writing the peers file, start-up -/

/-- `peerman_read_rec` refuses the record: its command is not `CAddress`, its
`data_len` is not `sizeof(struct bp_address)`, or its payload does not
decode. -/
def bad_record (E : ccoin) (m : p2p_message) : Prop :=
  strncmp m.hdr.command (cstr "CAddress") 12 ≠ 0 ∨
    m.hdr.data_len ≠ E.sizeof_bp_address ∨
    E.deser_bp_addr E.CADDR_TIME_VERSION (m.data.take m.hdr.data_len) = none

/-- The records `mbr_read` hands out from `buf`, in order, in at most `fuel`
calls. -/
def stream_records (E : ccoin) : Nat → Bytes → List p2p_message
  | 0, _ => []
  | fuel + 1, buf =>
    match E.mbr_read buf with
    | .msg m rest => m :: stream_records E fuel rest
    | .eof => []
    | .error => []

/-- `peerman_write`, given whether `setting("peers")` names a file, the file's
content before (`none`: no such file) and whether `bu_write_file` succeeds.
Returns `rc` and the file's content after. -/
def peerman_write (E : ccoin) (peers : peer_manager) (filename : Bool)
    (file : Option Bytes) (wr_ok : Bool) : Bool × Option Bytes :=
  if !filename then (false, file)
  else
    match ser_peerman E peers with
    | none => (false, file)
    | some data => if wr_ok then (true, some data) else (false, file)

/-- The start of `network_child`: `peers = peerman_read()`, and when that is
`NULL`, `peers = peerman_seed()` followed by `peerman_write(peers)`.
`seedlist` is what `bu_dns_seed_addrs` returns.  The result is the book the
worker runs with, whether it came from the seed, and the peers file after.
`none` when the read loop's iteration bound was used up. -/
def network_child_peers (E : ccoin) (filename : Bool) (file : Option Bytes)
    (seedlist : List bp_address) (wr_ok : Bool) :
    Option (peer_manager × Bool × Option Bytes) :=
  match peerman_read E (if filename then file else none) with
  | none => none
  | some (some peers) => some (peers, false, file)
  | some none =>
    let peers := peerman_seed seedlist
    some (peers, true, (peerman_write E peers filename file wr_ok).2)

/-! ## Opening connections (`net.c`) -/

/-- `NC_MAX_CONN`. -/
def NC_MAX_CONN : Nat := 8

/-- The C `struct net_child_info`: the address book and the array of active
connections. -/
structure net_child_info where
  peers : peer_manager
  conns : List nc_conn
deriving DecidableEq, Repr

/-- `nc_conn_ip_active`: some active connection has the same 16 bytes. -/
def nc_conn_ip_active (nci : net_child_info) (ip : Bytes) : Bool :=
  nci.conns.any (fun conn => memcmp_eq conn.addr.ip ip 16)

/-- `nc_conn_new`: a `calloc`-zeroed connection with `fd = -1` and a copy of
the address when one is given. -/
def nc_conn_new (addr_in : Option bp_address) : nc_conn :=
  { fd := -1,
    addr := addr_in.getD { nTime := 0, nServices := 0, ip := List.replicate 16 0, port := 0 },
    ipv4 := false, connected := false, ev := false, write_ev := false,
    write_q := [], write_partial := 0,
    msg := { hdr := { netmagic := List.replicate 4 0, command := List.replicate 12 0,
                      data_len := 0, hash := List.replicate 4 0 },
             data := [] },
    msg_p := .null, expected := 0, reading_hdr := false,
    hdrbuf := [], seen_version := false, seen_verack := false, protover := 0 }

/-- Modelled from the spec: `is_ipv4_mapped` of ccoin, for "a 16-byte IP
address (IPv4-mapped or native IPv6)": the first 12 bytes are `::ffff`. -/
def is_ipv4_mapped (ip : Bytes) : Bool :=
  memcmp_eq ip [0, 0, 0, 0, 0, 0, 0, 0, 0, 0, 255, 255] 12

/-- What the system calls of one connection attempt return: `socket`,
`fcntl` (both calls fine or not), `connect`, `event_new` (non-`NULL` or not)
and `event_add`. -/
structure setup_outcome where
  fd : Int
  fcntl_ok : Bool
  connect_rc : Int
  event_new_ok : Bool
  event_add_rc : Int
deriving DecidableEq, Repr

/-- `nc_conn_start`. -/
def nc_conn_start (conn : nc_conn) (out : setup_outcome) : Bool × nc_conn :=
  let conn1 : nc_conn := { conn with ipv4 := is_ipv4_mapped conn.addr.ip, fd := out.fd }
  if out.fd < 0 then (false, conn1)
  else if !out.fcntl_ok then (false, conn1)
  else if out.connect_rc < 0 then (false, conn1)
  else (true, conn1)

/-- The `while` loop of `nc_conns_open`.  `outs i` is the outcome of the
system calls in iteration `i`; `dropped` collects the popped addresses whose
connection went to `err_loop` (freed, not added).  `none` when the iteration
bound `fuel` is used up. -/
def nc_conns_open_loop (outs : Nat → setup_outcome) :
    Nat → Nat → net_child_info → List bp_address →
    Option (net_child_info × List bp_address)
  | 0, _, _, _ => none
  | fuel + 1, i, nci, dropped =>
    if g_hash_table_size nci.peers.map_addr > 0 ∧ nci.conns.length < NC_MAX_CONN then
      let addr := (peerman_pop nci.peers).1
      let nci1 : net_child_info := { nci with peers := (peerman_pop nci.peers).2 }
      let conn := nc_conn_new addr
      if nc_conn_ip_active nci1 conn.addr.ip then
        nc_conns_open_loop outs fuel (i + 1) nci1 (dropped ++ addr.toList)
      else if !(nc_conn_start conn (outs i)).1 then
        nc_conns_open_loop outs fuel (i + 1) nci1 (dropped ++ addr.toList)
      else if !(outs i).event_new_ok then
        nc_conns_open_loop outs fuel (i + 1) nci1 (dropped ++ addr.toList)
      else if (outs i).event_add_rc ≠ 0 then
        nc_conns_open_loop outs fuel (i + 1) nci1 (dropped ++ addr.toList)
      else
        nc_conns_open_loop outs fuel (i + 1)
          { nci1 with conns := nci1.conns ++
              [{ (nc_conn_start conn (outs i)).2 with ev := true }] } dropped
    else some (nci, dropped)

/-- `nc_conns_open`: every iteration that pops removes one entry of
`addrlist`, so `addrlist.length + 1` iterations are allowed. -/
def nc_conns_open (outs : Nat → setup_outcome) (nci : net_child_info) :
    Option (net_child_info × List bp_address) :=
  nc_conns_open_loop outs (nci.peers.addrlist.length + 1) 0 nci []

/-- `enum netcmds`. -/
def NC_OK : Nat := 0

/-- `enum netcmds`. -/
def NC_ERR : Nat := 1

/-- `enum netcmds`. -/
def NC_TIMEOUT : Nat := 2

/-- `enum netcmds`. -/
def NC_START : Nat := 3

/-- `enum netcmds`. -/
def NC_STOP : Nat := 4

/-- What the pipe does while `readcmd` waits on it: `poll` fails
(`poll_fails`), or the descriptor becomes readable `ready_ms` milliseconds
after the call (`none`: never); then what `read` returns (`rrc`) and the
byte it stores in `v`. -/
structure pipe_read where
  poll_fails : Bool
  ready_ms : Option Nat
  rrc : Int
  v : Nat
deriving DecidableEq, Repr

/-- The system call `poll(&pfd, 1, timeout_ms)` on the pipe: `-1` when it
fails, `1` when the descriptor is readable within `timeout_ms` milliseconds
(a negative timeout waits without limit), `0` when the timeout passes
first; `none` when it waits without limit on a descriptor that never becomes
readable. -/
def sys_poll (timeout_ms : Int) (r : pipe_read) : Option Int :=
  if r.poll_fails then some (-1)
  else
    match r.ready_ms with
    | some t => if timeout_ms < 0 ∨ (t : Int) ≤ timeout_ms then some 1 else some 0
    | none => if timeout_ms < 0 then none else some 0

/-- The timeout `readcmd` passes to `poll`, in milliseconds:
`timeout_secs ? timeout_secs * 1000 : -1`. -/
def readcmd_poll_timeout (timeout_secs : Int) : Int :=
  if timeout_secs ≠ 0 then timeout_secs * 1000 else -1

/-- `readcmd(fd, timeout_secs)`; `none` when `poll` never returns. -/
def readcmd (timeout_secs : Int) (r : pipe_read) : Option Nat :=
  match sys_poll (readcmd_poll_timeout timeout_secs) r with
  | none => none
  | some prc =>
    if prc < 0 then some NC_ERR
    else if prc = 0 then some NC_TIMEOUT
    else if r.rrc < 0 then some NC_ERR
    else if r.rrc ≠ 1 then some NC_ERR
    else some r.v

/-- `sendcmd` through `pipwr`: the bytes that reach the pipe.  The one-byte
`write` either takes the byte or fails (`perror`, return). -/
def sendcmd (nc : Nat) (wr_ok : Bool) : Bytes :=
  if wr_ok then [nc % 256] else []

/-- What one `nc_pipe_evt` does: the bytes written to `write_fd`, whether
`event_base_loopbreak` was called, and the exit status if `exit` was. -/
structure pipe_evt_result where
  reply : Bytes
  loopbreak : Bool
  exited : Option Nat
deriving DecidableEq, Repr

/-- `nc_pipe_evt`: the command is read with `readcmd(nci->read_fd, 0)`;
`none` when that never returns. -/
def nc_pipe_evt (r : pipe_read) (wr_ok : Bool) : Option pipe_evt_result :=
  match readcmd 0 r with
  | none => none
  | some nc =>
    if nc = NC_START then
      some { reply := sendcmd NC_OK wr_ok, loopbreak := false, exited := none }
    else if nc = NC_STOP then
      some { reply := sendcmd NC_OK wr_ok, loopbreak := true, exited := none }
    else some { reply := [], loopbreak := false, exited := some 1 }

/-- `neteng_cmd_exec`: the bytes sent to the worker and the return value;
the reply is awaited with `readcmd(read_fd, 60)`. -/
def neteng_cmd_exec (nc : Nat) (wr_ok : Bool) (r : pipe_read) : Option (Bytes × Bool) :=
  match readcmd 60 r with
  | none => none
  | some ncr => if ncr ≠ NC_OK then some (sendcmd nc wr_ok, false)
    else some (sendcmd nc wr_ok, true)

/-! ## Runs of sends and write events -/

/-- One thing that happens to a connection's write side: a call of
`nc_conn_send` (with the result of its optimistic `write`, used when the
queue is empty), or a write-ready event (with the result of its `writev`). -/
inductive wq_event where
  | send (command data : Bytes) (wrc : sys_write)
  | write_ready (wrc : sys_write)
deriving DecidableEq, Repr

/-- The transport takes between 0 and `offered` bytes: `EAGAIN` (nothing
taken) or a count of at most `offered`; no fatal error. -/
def wrc_within (wrc : sys_write) (offered : Nat) : Bool :=
  match wrc with
  | .error => false
  | .again => true
  | .wrote n => decide (n ≤ offered)

/-- The event's transport answer is within what the connection offers in
this state: the whole message for a send on an empty queue, the bytes of the
`iovec` array for a write-ready event.  A send must also get a message from
`message_str`. -/
def event_ok (E : ccoin) (s : nc_conn × net_world) (e : wq_event) : Bool :=
  match e with
  | .send command data wrc =>
    match E.message_str E.netmagic command data with
    | none => false
    | some buf => !s.1.write_q.isEmpty || wrc_within wrc buf.length
  | .write_ready wrc =>
    wrc_within wrc
      (iov_bytes (nc_conn_build_iov s.1.write_q ( nc_conn.write_partial s.1))).length

/-- One event applied to the connection; `none` when the connection does not
survive it (`nc_conn_send` returns false, the connection is freed, or
`nc_conn_written` dereferences `NULL`). -/
def wq_step (E : ccoin) (s : nc_conn × net_world) (e : wq_event) :
    Option (nc_conn × net_world) :=
  match e with
  | .send command data wrc =>
    if (nc_conn_send E s.1 s.2 command data wrc).1 then
      some (nc_conn_send E s.1 s.2 command data wrc).2
    else none
  | .write_ready wrc =>
    match nc_conn_write_evt s.1 s.2 wrc with
    | some (some conn, w) => some (conn, w)
    | _ => none

/-- The events applied one after another. -/
def wq_run (E : ccoin) : nc_conn × net_world → List wq_event → Option (nc_conn × net_world)
  | s, [] => some s
  | s, e :: es =>
    match wq_step E s e with
    | none => none
    | some s1 => wq_run E s1 es

/-- Every event of the run has a transport answer within what is offered in
the state where it happens (nothing is asked of the events after a step
that fails). -/
def wq_admissible (E : ccoin) : nc_conn × net_world → List wq_event → Bool
  | _, [] => true
  | s, e :: es =>
    event_ok E s e &&
      match wq_step E s e with
      | none => true
      | some s1 => wq_admissible E s1 es

/-- The concatenation of the messages `message_str` built for the sends of
the run, in order. -/
def msgs_of (E : ccoin) : List wq_event → Bytes
  | [] => []
  | .send command data _ :: es =>
    (E.message_str E.netmagic command data).getD [] ++ msgs_of E es
  | .write_ready _ :: es => msgs_of E es

/-- Every message sent in the run is non-empty. -/
def sends_nonempty (E : ccoin) : List wq_event → Bool
  | [] => true
  | .send command data _ :: es =>
    !((E.message_str E.netmagic command data).getD []).isEmpty && sends_nonempty E es
  | .write_ready _ :: es => sends_nonempty E es

/-- Every message sent in the run is shorter than `2^32` bytes, so its
length and every offset into it fit the `unsigned int` variables
`write_partial` and `left`. -/
def sends_fit (E : ccoin) : List wq_event → Bool
  | [] => true
  | .send command data _ :: es =>
    decide (((E.message_str E.netmagic command data).getD []).length < 2 ^ 32) &&
      sends_fit E es
  | .write_ready _ :: es => sends_fit E es

/-- The write queue is well formed: buffers shorter than `2^32` bytes,
`write_partial` within the first buffer, and zero when the queue is empty. -/
def wq_inv (conn : nc_conn) : Prop :=
  (∀ buf ∈ conn.write_q, buf.length < 2 ^ 32) ∧
    (∀ buf rest, conn.write_q = buf :: rest → conn.write_partial ≤ buf.length) ∧
    (conn.write_q = [] → conn.write_partial = 0)

/-- The stronger state of a queue of non-empty messages: `write_partial`
strictly inside the first buffer. -/
def wq_strict (conn : nc_conn) : Prop :=
  (∀ buf ∈ conn.write_q, 0 < buf.length) ∧
    (∀ buf rest, conn.write_q = buf :: rest → conn.write_partial < buf.length)

/-- The events follow the queue: write events on exactly when the queue is
non-empty, read events on exactly when it is empty. -/
def wq_events (conn : nc_conn) : Prop :=
  (conn.write_ev = true ↔ conn.write_q ≠ []) ∧
    (conn.ev = true ↔ conn.write_q = [])

/-! ### Sample data -/

/-- An IPv4-mapped 16-byte address ending in `a.b.c.d`. -/
def ipv4_mapped (a b c d : Nat) : Bytes :=
  [0, 0, 0, 0, 0, 0, 0, 0, 0, 0, 255, 255, a, b, c, d]

/-- Sample peer 10.0.0.1:8333. -/
def addrA : bp_address :=
  { nTime := 1350000000, nServices := 1, ip := ipv4_mapped 10 0 0 1, port := 8333 }

/-- Sample peer 10.0.0.2:8333. -/
def addrB : bp_address :=
  { nTime := 1350000001, nServices := 1, ip := ipv4_mapped 10 0 0 2, port := 8333 }

/-- Sample peer 10.0.0.3:18333. -/
def addrC : bp_address :=
  { nTime := 1350000002, nServices := 0, ip := ipv4_mapped 10 0 0 3, port := 18333 }

/-- Same IP as `addrA`, other port, service bits and time. -/
def addrA2 : bp_address :=
  { nTime := 7, nServices := 0, ip := ipv4_mapped 10 0 0 1, port := 18333 }

/-- The book holding `addrA` only. -/
def bookA : peer_manager := peerman_add peerman_new addrA false

/-! ### A sample library

The theorems below hold for every `ccoin`.  `wire` is one instance, used to
run the code on concrete inputs. -/

/-- Little-endian encoding of `v` on `n` bytes. -/
def ser_le (n v : Nat) : Bytes := (List.range n).map (fun i => v / 256 ^ i % 256)

/-- Little-endian decoding. -/
def deser_le (b : Bytes) : Nat := b.foldr (fun x acc => x % 256 + 256 * acc) 0

/-- Big-endian encoding of `v` on `n` bytes. -/
def ser_be (n v : Nat) : Bytes := (ser_le n v).reverse

/-- Big-endian decoding. -/
def deser_be (b : Bytes) : Nat := deser_le b.reverse

/-- Modelled from the spec: the four header bytes after the body-length
field ("checksum ... as defined by the external codec"); the library's digest
is replaced by the byte sum of the body. -/
def wire_checksum (data : Bytes) : Bytes := ser_le 4 (data.sum % 2 ^ 32)

/-- Modelled from the spec: `message_str` of the wire codec, "fixed-size
message header containing a 4-byte network-magic tag, a command name, and a
body-length field", followed by the body. -/
def wire_message_str (magic command data : Bytes) : Option Bytes :=
  some (magic.take 4 ++ (command ++ List.replicate 12 0).take 12 ++
    ser_le 4 data.length ++ wire_checksum data ++ data)

/-- Modelled from the spec: `parse_message_hdr`, the inverse reading of the
24 header bytes. -/
def wire_parse_message_hdr (buf : Bytes) : p2p_message_hdr :=
  { netmagic := buf.take 4,
    command := (buf.drop 4).take 12,
    data_len := deser_le ((buf.drop 16).take 4),
    hash := (buf.drop 20).take 4 }

/-- Modelled from the spec: `message_valid`, the checksum test on the body. -/
def wire_message_valid (m : p2p_message) : Bool :=
  decide (m.hdr.hash = wire_checksum (m.data.take m.hdr.data_len))

/-- Modelled from the spec: the address record on the wire, "16-byte IP,
port, service-flags, timestamp": a 4-byte time (from protocol version
`CADDR_TIME_VERSION` on), 8-byte service flags, the 16-byte IP and a 2-byte
port in network order, 30 bytes in all. -/
def wire_ser_bp_addr (protover : Nat) (a : bp_address) : Bytes :=
  (if protover ≥ 31402 then ser_le 4 a.nTime else []) ++
    ser_le 8 a.nServices ++ a.ip.take 16 ++ ser_be 2 a.port

/-- Modelled from the spec: `deser_bp_addr`, reading the record back; fails
on a short buffer. -/
def wire_deser_bp_addr (protover : Nat) (b : Bytes) : Option bp_address :=
  if protover ≥ 31402 then
    if b.length < 30 then none
    else some { nTime := deser_le (b.take 4),
                nServices := deser_le ((b.drop 4).take 8),
                ip := (b.drop 12).take 16,
                port := deser_be ((b.drop 28).take 2) }
  else
    if b.length < 26 then none
    else some { nTime := 0,
                nServices := deser_le (b.take 8),
                ip := (b.drop 8).take 16,
                port := deser_be ((b.drop 24).take 2) }

/-- Modelled from the spec: the `version` body, "protocol version, service
bits, timestamp, nonce, sub-version string, starting height", the string
with a one-byte length. -/
def wire_deser_msg_version (b : Bytes) : Option msg_version :=
  if b.length < 29 then none
  else
    let n := (b.drop 28).headD 0
    if b.length < 29 + n + 4 then none
    else some { nVersion := deser_le (b.take 4),
                nServices := deser_le ((b.drop 4).take 8),
                nTime := deser_le ((b.drop 12).take 8),
                nonce := deser_le ((b.drop 20).take 8),
                strSubVer := (b.drop 29).take n,
                nStartingHeight := deser_le ((b.drop (29 + n)).take 4) }

/-- The inverse of `wire_deser_msg_version`. -/
def wire_ser_msg_version (mv : msg_version) : Bytes :=
  ser_le 4 mv.nVersion ++ ser_le 8 mv.nServices ++ ser_le 8 mv.nTime ++
    ser_le 8 mv.nonce ++ [mv.strSubVer.length] ++ mv.strSubVer ++
    ser_le 4 mv.nStartingHeight

/-- The records of an `addr` body, `sz` bytes each. -/
def wire_deser_addrs (protover sz : Nat) : Nat → Bytes → Option (List bp_address)
  | 0, _ => some []
  | n + 1, b =>
    match wire_deser_bp_addr protover (b.take sz), wire_deser_addrs protover sz n (b.drop sz) with
    | some a, some l => some (a :: l)
    | _, _ => none

/-- Modelled from the spec: the `addr` body, "list of timestamped peer
addresses", a one-byte count and then the records. -/
def wire_deser_msg_addr (protover : Nat) (b : Bytes) : Option (List bp_address) :=
  match b with
  | [] => none
  | n :: rest => wire_deser_addrs protover (if protover ≥ 31402 then 30 else 26) n rest

/-- Modelled from the spec: `mbr_read` on "a sequence of tagged,
magic-prefixed, length-framed records": end of input on an empty buffer, an
error on a truncated or invalid record, else the record and the rest. -/
def wire_mbr_read (buf : Bytes) : mbr_step :=
  if buf.isEmpty then .eof
  else if buf.length < 24 then .error
  else
    let hdr := wire_parse_message_hdr (buf.take 24)
    if buf.length - 24 < hdr.data_len then .error
    else
      let m : p2p_message := { hdr := hdr, data := (buf.drop 24).take hdr.data_len }
      if !wire_message_valid m then .error
      else .msg m (buf.drop (24 + hdr.data_len))

/-- Modelled from the spec: `sizeof(struct bp_address)`, the in-memory size of
the address record ("a 16-byte IP address, a port, a service-flags bitmask,
and a last-seen timestamp") as the C struct with members `uint32_t nTime;
uint64_t nServices; unsigned char ip[16]; uint16_t port` under natural
alignment: 4 + 4 padding + 8 + 16 + 2 + 6 padding. -/
def wire_sizeof_bp_address : Nat := 40

/-- The sample library: main-network magic, the protocol constants of the
reference client, and the codec above. -/
def wire : ccoin :=
  { P2P_HDR_SZ := 24,
    PROTO_VERSION := 60002,
    CADDR_TIME_VERSION := 31402,
    NODE_NETWORK := 1,
    sizeof_bp_address := wire_sizeof_bp_address,
    netmagic := [0xf9, 0xbe, 0xb4, 0xd9],
    instance_nonce := 0x1122334455667788,
    message_str := wire_message_str,
    parse_message_hdr := wire_parse_message_hdr,
    message_valid := wire_message_valid,
    deser_msg_version := wire_deser_msg_version,
    deser_msg_addr := wire_deser_msg_addr,
    ser_bp_addr := wire_ser_bp_addr,
    deser_bp_addr := wire_deser_bp_addr,
    mbr_read := wire_mbr_read }

/-- The 24 bytes of a `verack` message (empty body). -/
def verack_wire : Bytes :=
  (wire.message_str wire.netmagic (cstr "verack") []).getD []

/-- A peer's `version` payload: version 70001, `NODE_NETWORK`, another nonce. -/
def peer_version : msg_version :=
  { nVersion := 70001, nServices := 1, nTime := 1350000000,
    nonce := 0xabcdef, strSubVer := cstr "/Satoshi:0.7.0/", nStartingHeight := 200000 }

/-- A `version` payload carrying this process's own nonce. -/
def self_version : msg_version :=
  { peer_version with nonce := wire.instance_nonce, nVersion := 209 }

/-- A world with the given book and inbound bytes, nothing sent yet. -/
def world0 (peers : peer_manager) (rx : Bytes) : net_world :=
  { peers := peers, tx := [], rx := rx, sends := [] }

/-- A connection to `addrB`, just connected. -/
def connB : nc_conn := nc_conn_connected wire addrB 5

/-- The connection to `addrB` after the peer's `version` was accepted. -/
def connB_versioned : nc_conn :=
  { connB with seen_version := true, protover := 60002 }

/-- A connection holding a complete message with the given command and body. -/
def with_msg (conn : nc_conn) (command data : Bytes) : nc_conn :=
  { conn with
    msg := { hdr := { netmagic := wire.netmagic,
                      command := (command ++ List.replicate 12 0).take 12,
                      data_len := data.length,
                      hash := wire_checksum data },
             data := data },
    msg_p := .data data.length, expected := 0, reading_hdr := false }

/-- A header buffer for `command` declaring a body of `len` bytes. -/
def hdr_declaring (command : Bytes) (len : Nat) : Bytes :=
  wire.netmagic ++ (command ++ List.replicate 12 0).take 12 ++ ser_le 4 len ++ [0, 0, 0, 0]

/-- A connection whose header buffer has just been filled with `hdr`. -/
def with_hdr (conn : nc_conn) (hdr : Bytes) : nc_conn :=
  { conn with hdrbuf := hdr, msg_p := .hdrbuf hdr.length, expected := 0 }

/-- The book `[addrA, addrB, addrC]`, each added as known working. -/
def bookABC : peer_manager :=
  peerman_add_calls peerman_new [(addrA, true), (addrB, true), (addrC, true)]

/-- A record that `peerman_read_rec` of `wire` accepts: command `CAddress`
and a payload of `sizeof(struct bp_address)` bytes starting with the
serialized address. -/
def padded_record (a : bp_address) : Bytes :=
  (wire.message_str wire.netmagic (cstr "CAddress")
    (wire.ser_bp_addr wire.CADDR_TIME_VERSION a ++ List.replicate 10 0)).getD []

/-- A record with the command `verack`. -/
def foreign_record : Bytes := verack_wire

/-- System calls that all succeed, on descriptor `7 + i`. -/
def all_ok (i : Nat) : setup_outcome :=
  { fd := 7 + i, fcntl_ok := true, connect_rc := 0, event_new_ok := true, event_add_rc := 0 }

/-- System calls where `connect` fails in every second attempt. -/
def connect_flaky (i : Nat) : setup_outcome :=
  { all_ok i with connect_rc := if i % 2 = 0 then -1 else 0 }

/-- A run on the write side: a `getaddr` of which the socket takes 10
bytes, a `verack` queued behind it, a write event that takes 20 bytes, one
that would block, and one that takes the remaining 18. -/
def sample_run : List wq_event :=
  [.send (cstr "getaddr") [] (.wrote 10), .send (cstr "verack") [] .error,
   .write_ready (.wrote 20), .write_ready .again, .write_ready (.wrote 18)]

/-- A `getaddr` of which the socket takes 10 bytes, then a write event that
takes the 14 bytes left. -/
def sample_stall : List wq_event :=
  [.send (cstr "getaddr") [] (.wrote 10), .write_ready (.wrote 14)]

/-- A world in which the coming event registrations end as listed. -/
def world_evreg (peers : peer_manager) (evreg : List ev_outcome) : net_world :=
  { peers := peers, tx := [], rx := [], sends := [], evreg := evreg }

/-! ## The address book: order of insertion and uniqueness of IPs -/

theorem addr_equal_iff (a b : Bytes) : addr_equal a b = true ↔ a.take 16 = b.take 16 := by
  simp [addr_equal]

theorem addr_equal_false_iff (a b : Bytes) :
    addr_equal a b = false ↔ a.take 16 ≠ b.take 16 := by
  simp [addr_equal]

theorem lookup_iff (m : List Bytes) (key : Bytes) :
    g_hash_table_lookup_extended m key = true ↔ ∃ k ∈ m, addr_equal k key = true := by
  simp [g_hash_table_lookup_extended, List.any_eq_true]

theorem lookup_insert (m : List Bytes) (k key : Bytes) :
    g_hash_table_lookup_extended (g_hash_table_insert m k) key = true ↔
      (g_hash_table_lookup_extended m key = true ∨ addr_equal k key = true) := by
  unfold g_hash_table_insert
  by_cases h : g_hash_table_lookup_extended m k = true
  · rw [if_pos h]
    constructor
    · intro h1; exact Or.inl h1
    · rintro (h1 | h1)
      · exact h1
      · obtain ⟨k0, hk0, e0⟩ := (lookup_iff m k).1 h
        refine (lookup_iff m key).2 ⟨k0, hk0, ?_⟩
        rw [addr_equal_iff] at *
        exact e0.trans h1
  · rw [if_neg h]
    simp [g_hash_table_lookup_extended, List.any_append]

theorem peerman_add_noop (peers : peer_manager) (addr : bp_address) (kw : Bool)
    (h : peerman_has_addr peers addr.ip = true) : peerman_add peers addr kw = peers := by
  simp [peerman_add, h]

theorem peerman_add_fresh (peers : peer_manager) (addr : bp_address) (kw : Bool)
    (h : peerman_has_addr peers addr.ip = false) :
    peerman_add peers addr kw = __peerman_add peers addr (!kw) := by
  simp [peerman_add, h]

theorem in_sync_add (p : peer_manager) (a : bp_address) (kw : Bool) (hs : in_sync p) :
    in_sync (peerman_add p a kw) := by
  by_cases h : peerman_has_addr p a.ip = true
  · rw [peerman_add_noop p a kw h]; exact hs
  · rw [Bool.not_eq_true] at h
    rw [peerman_add_fresh p a kw h]
    intro key
    show g_hash_table_lookup_extended (g_hash_table_insert p.map_addr a.ip) key = true ↔ _
    rw [lookup_insert, hs key]
    cases kw <;> simp [__peerman_add, or_comm, or_and_right, exists_or]

theorem distinct_add (p : peer_manager) (a : bp_address) (kw : Bool) (hs : in_sync p)
    (hd : distinct_ips p.addrlist) : distinct_ips (peerman_add p a kw).addrlist := by
  by_cases h : peerman_has_addr p a.ip = true
  · rw [peerman_add_noop p a kw h]; exact hd
  · rw [Bool.not_eq_true] at h
    rw [peerman_add_fresh p a kw h]
    have hfresh : ∀ e ∈ p.addrlist, e.ip.take 16 ≠ a.ip.take 16 := by
      intro e he heq
      have : g_hash_table_lookup_extended p.map_addr a.ip = true :=
        (hs a.ip).2 ⟨e, he, (addr_equal_iff _ _).2 heq⟩
      rw [peerman_has_addr] at h
      rw [h] at this
      exact Bool.false_ne_true this
    unfold distinct_ips at *
    cases kw
    · simp only [__peerman_add, Bool.not_false, if_true]
      refine List.pairwise_cons.2 ⟨?_, hd⟩
      intro e he
      rw [addr_equal_false_iff]
      exact fun heq => hfresh e he heq.symm
    · simp only [__peerman_add, Bool.not_true, Bool.false_eq_true, if_false]
      refine List.pairwise_append.2 ⟨hd, List.pairwise_singleton _ _, ?_⟩
      intro e he b hb
      rw [List.mem_singleton] at hb
      subst hb
      rw [addr_equal_false_iff]
      exact hfresh e he

theorem add_calls_inv (calls : List (bp_address × Bool)) (p : peer_manager)
    (hs : in_sync p) (hd : distinct_ips p.addrlist) :
    in_sync (peerman_add_calls p calls) ∧
      distinct_ips (peerman_add_calls p calls).addrlist := by
  induction calls generalizing p with
  | nil => exact ⟨hs, hd⟩
  | cons c cs ih =>
    exact ih (peerman_add p c.1 c.2) (in_sync_add p c.1 c.2 hs) (distinct_add p c.1 c.2 hs hd)

theorem in_sync_new : in_sync peerman_new := by
  intro key
  simp [peerman_new, g_hash_table_lookup_extended]

/-- C1 (as the code has it): for an address whose IP is not in the book,
`peerman_add` with `known_working = true` appends it (it becomes the last
entry) and with `known_working = false` prepends it (it becomes the first
entry); so after `add(x, false)`, `add(y, false)` on the empty book with
different IPs, two pops return `y` and then `x`. -/
theorem peerman_add_order (peers : peer_manager) (addr x y : bp_address)
    (h : peerman_has_addr peers addr.ip = false)
    (hxy : addr_equal x.ip y.ip = false) :
    (peerman_add peers addr true).addrlist = peers.addrlist ++ [addr] ∧
    (peerman_add peers addr false).addrlist = addr :: peers.addrlist ∧
    (peerman_pop (peerman_add (peerman_add peerman_new x false) y false)).1 = some y ∧
    (peerman_pop (peerman_pop
      (peerman_add (peerman_add peerman_new x false) y false)).2).1 = some x := by
  have hx : peerman_add peerman_new x false = __peerman_add peerman_new x true :=
    peerman_add_fresh _ _ _ (by simp [peerman_has_addr, peerman_new, g_hash_table_lookup_extended])
  have hy : peerman_has_addr (__peerman_add peerman_new x true) y.ip = false := by
    simp [peerman_has_addr, __peerman_add, peerman_new, g_hash_table_insert,
      g_hash_table_lookup_extended, hxy]
  refine ⟨?_, ?_, ?_, ?_⟩
  · rw [peerman_add_fresh _ _ _ h]; simp [__peerman_add]
  · rw [peerman_add_fresh _ _ _ h]; simp [__peerman_add]
  · rw [hx, peerman_add_fresh _ _ _ hy]; simp [__peerman_add, peerman_pop, peerman_new]
  · rw [hx, peerman_add_fresh _ _ _ hy]; simp [__peerman_add, peerman_pop, peerman_new]

/-- Witness for C1: the book holding 10.0.0.1, adding 10.0.0.2. -/
theorem peerman_add_order_witness :
    (peerman_add bookA addrB true).addrlist = bookA.addrlist ++ [addrB] ∧
    (peerman_add bookA addrB false).addrlist = addrB :: bookA.addrlist ∧
    (peerman_pop (peerman_add (peerman_add peerman_new addrA false) addrB false)).1
      = some addrB ∧
    (peerman_pop (peerman_pop
      (peerman_add (peerman_add peerman_new addrA false) addrB false)).2).1 = some addrA :=
  peerman_add_order bookA addrB addrA addrB (by decide) (by decide)

/-- C1 as stated fails: on the book holding 10.0.0.1, adding the absent
10.0.0.2 as known working does not put it first, adding it as not known
working does not put it last, and after two back-to-back
`add(_, false)` calls the first pop is not the first address added. -/
theorem peerman_add_order_counterexample :
    peerman_has_addr bookA addrB.ip = false ∧
    (peerman_add bookA addrB true).addrlist ≠ addrB :: bookA.addrlist ∧
    (peerman_add bookA addrB false).addrlist ≠ bookA.addrlist ++ [addrB] ∧
    (peerman_pop (peerman_add (peerman_add peerman_new addrA false) addrB false)).1
      ≠ some addrA := by
  decide

/-- C2: after any finite sequence of `peerman_add` calls on the empty book no
two entries have the same 16-byte IP; and `peerman_add` returns the book
unchanged (sequence and set), for either flag, when the IP is in the set, in
particular when the book was built by such calls and some entry has that IP,
whatever the other fields of the address are. -/
theorem peerman_add_dedup (calls : List (bp_address × Bool)) (peers : peer_manager)
    (addr : bp_address) (kw : Bool) :
    distinct_ips (peerman_add_calls peerman_new calls).addrlist ∧
    ((∃ e ∈ (peerman_add_calls peerman_new calls).addrlist,
        addr_equal e.ip addr.ip = true) →
      peerman_add (peerman_add_calls peerman_new calls) addr kw =
        peerman_add_calls peerman_new calls) ∧
    (peerman_has_addr peers addr.ip = true → peerman_add peers addr kw = peers) := by
  have hinv := add_calls_inv calls peerman_new in_sync_new List.Pairwise.nil
  refine ⟨hinv.2, ?_, peerman_add_noop peers addr kw⟩
  intro he
  exact peerman_add_noop _ addr kw ((hinv.1 addr.ip).2 he)

/-- Witness for C2: three adds, the third repeating the first IP with another
port; then the same IP is offered again with both flags. -/
theorem peerman_add_dedup_witness :
    (peerman_add_calls peerman_new [(addrA, false), (addrB, true), (addrA2, true)]).addrlist
      = [addrA, addrB] ∧
    peerman_add (peerman_add_calls peerman_new
        [(addrA, false), (addrB, true), (addrA2, true)]) addrA2 true =
      peerman_add_calls peerman_new [(addrA, false), (addrB, true), (addrA2, true)] ∧
    peerman_add bookA addrA2 false = bookA :=
  ⟨by decide,
   (peerman_add_dedup [(addrA, false), (addrB, true), (addrA2, true)] bookA addrA2 true).2.1
     ⟨addrA, by decide, by decide⟩,
   (peerman_add_dedup [] bookA addrA2 false).2.2 (by decide)⟩

/-! ## Framing and the handshake (`net.c`) -/

theorem cstr_verack : cstr "verack" = [118, 101, 114, 97, 99, 107] := by decide

theorem cstr_version : cstr "version" = [118, 101, 114, 115, 105, 111, 110] := by decide

theorem strncmp_cons_zero (a b : Bytes) (x n : Nat) (hx : x ≠ 0)
    (h : strncmp a (x :: b) (n + 1) = 0) : a.headD 0 = x ∧ strncmp a.tail b n = 0 := by
  unfold strncmp at h
  simp only [List.headD_cons, List.tail_cons] at h
  by_cases hc : a.headD 0 = x
  · rw [hc] at h
    simp [hx] at h
    exact ⟨hc, h⟩
  · rw [if_pos hc] at h
    exact absurd (by omega) hc

theorem verack_not_version (c : Bytes) (h : strncmp c (cstr "verack") 12 = 0) :
    strncmp c (cstr "version") 12 ≠ 0 := by
  intro h2
  rw [cstr_verack] at h
  rw [cstr_version] at h2
  obtain ⟨_, h⟩ := strncmp_cons_zero _ _ _ _ (by decide) h
  obtain ⟨_, h⟩ := strncmp_cons_zero _ _ _ _ (by decide) h
  obtain ⟨_, h⟩ := strncmp_cons_zero _ _ _ _ (by decide) h
  obtain ⟨ha, _⟩ := strncmp_cons_zero _ _ _ _ (by decide) h
  obtain ⟨_, h2⟩ := strncmp_cons_zero _ _ _ _ (by decide) h2
  obtain ⟨_, h2⟩ := strncmp_cons_zero _ _ _ _ (by decide) h2
  obtain ⟨_, h2⟩ := strncmp_cons_zero _ _ _ _ (by decide) h2
  obtain ⟨hb, _⟩ := strncmp_cons_zero _ _ _ _ (by decide) h2
  rw [ha] at hb
  exact absurd hb (by decide)

theorem read_evt_expected_zero (E : ccoin) (conn : nc_conn) (w : net_world)
    (rd : Option Nat) (wrc : sys_write) (h : conn.expected = 0) :
    nc_conn_read_evt E conn w rd wrc = (none, w) := by
  cases rd with
  | none => rfl
  | some n => simp [nc_conn_read_evt, h]

theorem read_evt_completes_header (E : ccoin) (c0 : nc_conn) (w : net_world) (n : Nat)
    (wrc : sys_write) (hr : c0.reading_hdr = true) (hpos : 0 < c0.expected)
    (hn : c0.expected ≤ n) (hlen : c0.expected ≤ w.rx.length) :
    nc_conn_read_evt E c0 w (some n) wrc =
      (nc_conn_got_header E { store_read c0 (w.rx.take c0.expected) with expected := 0 },
        { w with rx := w.rx.drop c0.expected }) := by
  have hl : ((w.rx.take c0.expected).take n).length = c0.expected := by
    simp only [List.length_take]; omega
  have ht : (w.rx.take c0.expected).take n = w.rx.take c0.expected := by
    apply List.take_of_length_le
    simp only [List.length_take]; omega
  have hrd : (store_read c0 (w.rx.take c0.expected)).reading_hdr = true := by
    unfold store_read
    cases c0.msg_p <;> simp [hr]
  unfold nc_conn_read_evt
  simp only [hl]
  rw [ht]
  have hne : c0.expected ≠ 0 := by omega
  simp [hne, hrd]

theorem store_read_flags (c : nc_conn) (bs : Bytes) :
    (store_read c bs).seen_version = c.seen_version ∧
    (store_read c bs).seen_verack = c.seen_verack := by
  unfold store_read
  cases c.msg_p <;> exact ⟨rfl, rfl⟩

theorem zero_length_body_closes (E : ccoin) (c0 : nc_conn) (w : net_world) (n : Nat)
    (wrc : sys_write) (hr : c0.reading_hdr = true) (hpos : 0 < c0.expected)
    (hn : c0.expected ≤ n) (hlen : c0.expected ≤ w.rx.length)
    (hL : (E.parse_message_hdr
      (store_read c0 (w.rx.take c0.expected)).hdrbuf).data_len = 0) :
    ∃ c1, nc_conn_read_evt E c0 w (some n) wrc =
        (some c1, { w with rx := w.rx.drop c0.expected }) ∧
      c1.reading_hdr = false ∧ c1.expected = 0 ∧
      c1.seen_version = c0.seen_version ∧ c1.seen_verack = c0.seen_verack ∧
      ∀ (rd : Option Nat) (wrc2 : sys_write),
        nc_conn_read_evt E c1 { w with rx := w.rx.drop c0.expected } rd wrc2 =
          (none, { w with rx := w.rx.drop c0.expected }) := by
  rw [read_evt_completes_header E c0 w n wrc hr hpos hn hlen]
  have hf := store_read_flags c0 (w.rx.take c0.expected)
  have hg : nc_conn_got_header E
      { store_read c0 (w.rx.take c0.expected) with expected := 0 } =
      some { store_read c0 (w.rx.take c0.expected) with
             msg := { hdr := E.parse_message_hdr (store_read c0 (w.rx.take c0.expected)).hdrbuf,
                      data := [] },
             msg_p := .data 0, expected := 0, reading_hdr := false } := by
    simp [nc_conn_got_header, hL]
  rw [hg]
  exact ⟨_, rfl, rfl, rfl, hf.1, hf.2,
    fun rd wrc2 => read_evt_expected_zero E _ _ rd wrc2 rfl⟩

/-- C3 at a zero-length body: a connection that has seen `version` receives
the 24 header bytes of a `verack` (body length 0), in one read or split 10 +
14.  The header is parsed, the connection waits for 0 body bytes and nothing
is dispatched (`seen_verack` stays false, no send); at the next read event,
whatever `read` and `write` would do, `read` is asked for 0 bytes and the
connection is freed. -/
theorem zero_length_body_never_dispatched :
    (wire.parse_message_hdr verack_wire).data_len = 0 ∧
    nc_conn_read_evt wire connB_versioned (world0 bookA (verack_wire ++ verack_wire))
        (some 24) (.wrote 24) =
      (some { with_msg connB_versioned (cstr "verack") [] with
              hdrbuf := verack_wire, msg_p := .data 0 },
        world0 bookA verack_wire) ∧
    read_evts wire (some connB_versioned, world0 bookA (verack_wire ++ verack_wire))
        [(some 10, .wrote 24), (some 14, .wrote 24)] =
      (some { with_msg connB_versioned (cstr "verack") [] with
              hdrbuf := verack_wire, msg_p := .data 0 },
        world0 bookA verack_wire) ∧
    ∀ (rd : Option Nat) (wrc : sys_write),
      read_evts wire
        (nc_conn_read_evt wire connB_versioned (world0 bookA (verack_wire ++ verack_wire))
          (some 24) (.wrote 24)) [(rd, wrc)] = (none, world0 bookA verack_wire) := by
  refine ⟨by decide, by decide, by decide, ?_⟩
  intro rd wrc
  have h1 : nc_conn_read_evt wire connB_versioned (world0 bookA (verack_wire ++ verack_wire))
      (some 24) (.wrote 24) =
      (some { with_msg connB_versioned (cstr "verack") [] with
                 hdrbuf := verack_wire, msg_p := .data 0 },
          world0 bookA verack_wire) := by decide
  simp only [h1, read_evts]
  exact read_evt_expected_zero _ _ _ _ _ rfl

theorem next_evreg_frame (w : net_world) :
    ∃ l, (next_evreg w).2 = { w with evreg := l } ∧
      (w.evreg = [] → (next_evreg w).1 = .ok ∧ l = []) := by
  unfold next_evreg
  cases h : w.evreg with
  | nil => exact ⟨[], by simp [← h], fun _ => ⟨rfl, rfl⟩⟩
  | cons o rest => exact ⟨rest, rfl, fun hc => absurd hc (by simp)⟩

theorem write_enable_frame (c : nc_conn) (w : net_world) :
    ∃ b l, (nc_conn_write_enable c w).2 = ({ c with write_ev := b }, { w with evreg := l }) ∧
      (w.evreg = [] → b = true ∧ l = []) := by
  unfold nc_conn_write_enable
  by_cases hw : c.write_ev = true
  · refine ⟨true, w.evreg, ?_, ?_⟩
    · rw [if_pos hw]
      show (c, w) = _
      rw [← hw]
    · intro h; exact ⟨rfl, h⟩
  · rw [if_neg hw]
    obtain ⟨l, hl, hok⟩ := next_evreg_frame w
    cases ho : (next_evreg w).1 with
    | ok => exact ⟨true, l, by simp [hl], fun h => ⟨rfl, (hok h).2⟩⟩
    | new_failed =>
      refine ⟨false, l, by simp [hl], fun h => ?_⟩
      rw [(hok h).1] at ho
      exact absurd ho (by simp)
    | add_failed =>
      refine ⟨false, l, by simp [hl], fun h => ?_⟩
      rw [(hok h).1] at ho
      exact absurd ho (by simp)

theorem read_enable_frame (c : nc_conn) (w : net_world) :
    ∃ b l, (nc_conn_read_enable c w).2 = ({ c with ev := b }, { w with evreg := l }) ∧
      (w.evreg = [] → b = true ∧ l = []) := by
  unfold nc_conn_read_enable
  by_cases hw : c.ev = true
  · refine ⟨true, w.evreg, ?_, ?_⟩
    · rw [if_pos hw]
      show (c, w) = _
      rw [← hw]
    · intro h; exact ⟨rfl, h⟩
  · rw [if_neg hw]
    obtain ⟨l, hl, hok⟩ := next_evreg_frame w
    cases ho : (next_evreg w).1 with
    | ok => exact ⟨true, l, by simp [hl], fun h => ⟨rfl, (hok h).2⟩⟩
    | new_failed =>
      refine ⟨false, l, by simp [hl], fun h => ?_⟩
      rw [(hok h).1] at ho
      exact absurd ho (by simp)
    | add_failed =>
      refine ⟨false, l, by simp [hl], fun h => ?_⟩
      rw [(hok h).1] at ho
      exact absurd ho (by simp)

theorem out_wrstart_frame (c : nc_conn) (w : net_world) :
    ∃ b l, out_wrstart c w = ({ c with ev := false, write_ev := b }, { w with evreg := l }) ∧
      (w.evreg = [] → b = true ∧ l = []) := by
  obtain ⟨b, l, h, hok⟩ := write_enable_frame (nc_conn_read_disable c) w
  exact ⟨b, l, by rw [out_wrstart, h]; rfl, hok⟩

theorem out_wrstart_conn (c : nc_conn) (w : net_world) :
    (out_wrstart c w).1.write_q = c.write_q ∧
    nc_conn.write_partial (out_wrstart c w).1 = c.write_partial ∧
    (out_wrstart c w).1.ev = false ∧
    (out_wrstart c w).1.seen_version = c.seen_version ∧
    (out_wrstart c w).1.seen_verack = c.seen_verack ∧
    (out_wrstart c w).1.protover = c.protover ∧
    (out_wrstart c w).1.addr = c.addr := by
  obtain ⟨b, l, h, _⟩ := out_wrstart_frame c w
  rw [h]
  exact ⟨rfl, rfl, rfl, rfl, rfl, rfl, rfl⟩

theorem out_wrstart_world (c : nc_conn) (w : net_world) :
    (out_wrstart c w).2.peers = w.peers ∧ (out_wrstart c w).2.tx = w.tx ∧
    (out_wrstart c w).2.rx = w.rx ∧ (out_wrstart c w).2.sends = w.sends := by
  obtain ⟨b, l, h, _⟩ := out_wrstart_frame c w
  rw [h]
  exact ⟨rfl, rfl, rfl, rfl⟩

theorem out_wrstart_registered (c : nc_conn) (w : net_world) (hreg : w.evreg = []) :
    (out_wrstart c w).1.write_ev = true ∧ (out_wrstart c w).2.evreg = [] := by
  obtain ⟨b, l, h, hok⟩ := out_wrstart_frame c w
  rw [h]
  exact ⟨(hok hreg).1, (hok hreg).2⟩

theorem nc_conn_send_fields (E : ccoin) (conn : nc_conn) (w : net_world)
    (command data : Bytes) (wrc : sys_write) :
    let r := nc_conn_send E conn w command data wrc
    r.2.1.seen_version = conn.seen_version ∧ r.2.1.seen_verack = conn.seen_verack ∧
    r.2.1.protover = conn.protover ∧ r.2.1.addr = conn.addr ∧
    r.2.2.peers = w.peers ∧ r.2.2.sends = w.sends ++ [(command, data)] := by
  unfold nc_conn_send
  cases hm : E.message_str E.netmagic command data with
  | none => simp
  | some buf =>
    by_cases hq : conn.write_q.isEmpty = true
    · cases wrc with
      | error => simp [hq]
      | again =>
        simp only [hq, Bool.not_true, Bool.false_eq_true, if_false]
        exact ⟨(out_wrstart_conn _ _).2.2.2.1, (out_wrstart_conn _ _).2.2.2.2.1,
          (out_wrstart_conn _ _).2.2.2.2.2.1, (out_wrstart_conn _ _).2.2.2.2.2.2,
          (out_wrstart_world _ _).1, (out_wrstart_world _ _).2.2.2⟩
      | wrote n =>
        by_cases hn : n = buf.length
        · simp [hq, hn]
        · simp only [hq, Bool.not_true, Bool.false_eq_true, if_false, hn]
          exact ⟨(out_wrstart_conn _ _).2.2.2.1, (out_wrstart_conn _ _).2.2.2.2.1,
            (out_wrstart_conn _ _).2.2.2.2.2.1, (out_wrstart_conn _ _).2.2.2.2.2.2,
            (out_wrstart_world _ _).1, (out_wrstart_world _ _).2.2.2⟩
    · simp [hq]

/-- C4: with the right network magic, a `verack` on a connection that has not
seen `version` is rejected with the connection, its `seen_verack` flag and the
world (address book, sends) untouched; a `version` on a connection that has
seen one is rejected; a `verack` on a connection that has seen `verack` is
rejected.  In each case `nc_conn_got_msg` frees the connection. -/
theorem handshake_order (E : ccoin) (conn : nc_conn) (w : net_world) (wrc : sys_write)
    (hmagic : memcmp_eq conn.msg.hdr.netmagic E.netmagic 4 = true) :
    (conn.seen_version = false →
      strncmp conn.msg.hdr.command (cstr "verack") 12 = 0 →
        nc_conn_message E conn w wrc = (false, conn, w) ∧
        (nc_conn_got_msg E conn w wrc).1 = none ∧
        (nc_conn_got_msg E conn w wrc).2 = w) ∧
    (conn.seen_version = true →
      strncmp conn.msg.hdr.command (cstr "version") 12 = 0 →
        (nc_conn_message E conn w wrc).1 = false ∧
        (nc_conn_got_msg E conn w wrc).1 = none) ∧
    (conn.seen_verack = true →
      strncmp conn.msg.hdr.command (cstr "verack") 12 = 0 →
        (nc_conn_message E conn w wrc).1 = false ∧
        (nc_conn_got_msg E conn w wrc).1 = none) := by
  have hclose : ∀ r : Bool × nc_conn × net_world, r.1 = false →
      nc_conn_message E conn w wrc = r →
      (nc_conn_got_msg E conn w wrc).1 = none ∧
      ((nc_conn_got_msg E conn w wrc).2 = w ∨ (nc_conn_got_msg E conn w wrc).2 = r.2.2) := by
    rintro ⟨b, c, w1⟩ hb hr
    simp only at hb
    subst hb
    unfold nc_conn_got_msg
    by_cases hv : E.message_valid conn.msg = true
    · simp [hv, hr]
    · simp [hv]
  refine ⟨?_, ?_, ?_⟩
  · intro hsv hcmd
    have hne := verack_not_version _ hcmd
    have hm : nc_conn_message E conn w wrc = (false, conn, w) := by
      simp [nc_conn_message, hmagic, hne, hsv]
    obtain ⟨h1, h2⟩ := hclose _ rfl hm
    exact ⟨hm, h1, by rcases h2 with h2 | h2 <;> exact h2⟩
  · intro hsv hcmd
    have hm : nc_conn_message E conn w wrc = (false, conn, w) := by
      simp [nc_conn_message, hmagic, hcmd, nc_msg_version, hsv]
    exact ⟨by rw [hm], (hclose _ rfl hm).1⟩
  · intro hsk hcmd
    have hne := verack_not_version _ hcmd
    have hm : nc_conn_message E conn w wrc = (false, conn, w) := by
      by_cases hsv : conn.seen_version = true
      · simp [nc_conn_message, hmagic, hne, hsv, hcmd, nc_msg_verack, hsk]
      · simp [nc_conn_message, hmagic, hne, hsv]
    exact ⟨by rw [hm], (hclose _ rfl hm).1⟩

/-- Witness for C4: a `verack` arriving first, a second `version`, a second
`verack`. -/
theorem handshake_order_witness :
    (nc_conn_message wire (with_msg connB (cstr "verack") []) (world0 bookA []) (.wrote 24)
        = (false, with_msg connB (cstr "verack") [], world0 bookA []) ∧
      (nc_conn_got_msg wire (with_msg connB (cstr "verack") []) (world0 bookA [])
        (.wrote 24)).1 = none ∧
      (nc_conn_got_msg wire (with_msg connB (cstr "verack") []) (world0 bookA [])
        (.wrote 24)).2 = world0 bookA []) ∧
    ((nc_conn_message wire
        (with_msg connB_versioned (cstr "version") (wire_ser_msg_version peer_version))
        (world0 bookA []) (.wrote 24)).1 = false ∧
      (nc_conn_got_msg wire
        (with_msg connB_versioned (cstr "version") (wire_ser_msg_version peer_version))
        (world0 bookA []) (.wrote 24)).1 = none) ∧
    ((nc_conn_message wire
        (with_msg { connB_versioned with seen_verack := true } (cstr "verack") [])
        (world0 bookA []) (.wrote 24)).1 = false ∧
      (nc_conn_got_msg wire
        (with_msg { connB_versioned with seen_verack := true } (cstr "verack") [])
        (world0 bookA []) (.wrote 24)).1 = none) :=
  ⟨(handshake_order wire (with_msg connB (cstr "verack") []) (world0 bookA []) (.wrote 24)
      (by decide)).1 (by decide) (by decide),
   (handshake_order wire
      (with_msg connB_versioned (cstr "version") (wire_ser_msg_version peer_version))
      (world0 bookA []) (.wrote 24) (by decide)).2.1 (by decide) (by decide),
   (handshake_order wire
      (with_msg { connB_versioned with seen_verack := true } (cstr "verack") [])
      (world0 bookA []) (.wrote 24) (by decide)).2.2 (by decide) (by decide)⟩

theorem nc_conn_send_ok_iff (E : ccoin) (conn : nc_conn) (w : net_world)
    (command data : Bytes) (wrc : sys_write) :
    (nc_conn_send E conn w command data wrc).1 = true ↔
      (∃ buf, E.message_str E.netmagic command data = some buf) ∧
      (conn.write_q ≠ [] ∨ wrc ≠ .error) := by
  unfold nc_conn_send
  cases hm : E.message_str E.netmagic command data with
  | none => simp
  | some buf =>
    by_cases hq : conn.write_q = []
    · cases wrc with
      | error => simp [hq]
      | again => simp [hq]
      | wrote n =>
        by_cases hn : n = buf.length
        · simp [hq, hn]
        · simp [hq, hn]
    · have : conn.write_q.isEmpty = false := by
        cases hc : conn.write_q with
        | nil => exact absurd hc hq
        | cons a l => rfl
      simp [hq, this]

/-- C5: on a connection that has not seen `version`, `nc_msg_version` accepts
exactly when the body decodes, the service bits include `NODE_NETWORK`, the
nonce is not `instance_nonce`, and the `verack` can be sent (`message_str`
gives a message and the write does not fail fatally on an empty queue); when
it accepts, `seen_version` is set, `protover` is the minimum of the peer's
`nVersion` and `PROTO_VERSION`, and the send path got one call, a `verack`
with an empty body. -/
theorem version_accept (E : ccoin) (conn : nc_conn) (w : net_world) (wrc : sys_write)
    (h : conn.seen_version = false) :
    ((nc_msg_version E conn w wrc).1 = true ↔
      ∃ mv, E.deser_msg_version (conn.msg.data.take conn.msg.hdr.data_len) = some mv ∧
        mv.nServices &&& E.NODE_NETWORK ≠ 0 ∧ mv.nonce ≠ E.instance_nonce ∧
        (∃ buf, E.message_str E.netmagic (cstr "verack") [] = some buf) ∧
        (conn.write_q ≠ [] ∨ wrc ≠ .error)) ∧
    ((nc_msg_version E conn w wrc).1 = true →
      (nc_msg_version E conn w wrc).2.1.seen_version = true ∧
      (∃ mv, E.deser_msg_version (conn.msg.data.take conn.msg.hdr.data_len) = some mv ∧
        (nc_msg_version E conn w wrc).2.1.protover = min mv.nVersion E.PROTO_VERSION) ∧
      (nc_msg_version E conn w wrc).2.2.sends = w.sends ++ [(cstr "verack", [])]) := by
  unfold nc_msg_version
  rw [h]
  simp only [Bool.false_eq_true, if_false]
  cases hd : E.deser_msg_version (conn.msg.data.take conn.msg.hdr.data_len) with
  | none => simp
  | some mv =>
    by_cases hs : mv.nServices &&& E.NODE_NETWORK = 0
    · simp [hs]
    · by_cases hn : mv.nonce = E.instance_nonce
      · simp [hs, hn]
      · simp only [hs, hn, if_false]
        have hf := nc_conn_send_fields E
          { conn with seen_version := true, protover := min mv.nVersion E.PROTO_VERSION }
          w (cstr "verack") [] wrc
        have hok := nc_conn_send_ok_iff E
          { conn with seen_version := true, protover := min mv.nVersion E.PROTO_VERSION }
          w (cstr "verack") [] wrc
        simp only at hf hok
        refine ⟨?_, ?_⟩
        · rw [hok]
          constructor
          · intro hh
            exact ⟨mv, rfl, hs, hn, hh.1, hh.2⟩
          · rintro ⟨_, _, _, _, h1, h2⟩
            exact ⟨h1, h2⟩
        · intro _
          exact ⟨hf.1, ⟨mv, rfl, hf.2.2.1⟩, hf.2.2.2.2.2⟩

/-- Witness for C5: the peer's `version` (70001, `NODE_NETWORK`) is accepted,
the protocol version becomes 60002 and one `verack` is sent. -/
theorem version_accept_witness :
    (nc_msg_version wire (with_msg connB (cstr "version") (wire_ser_msg_version peer_version))
      (world0 bookA []) (.wrote 24)).1 = true ∧
    (nc_msg_version wire (with_msg connB (cstr "version") (wire_ser_msg_version peer_version))
      (world0 bookA []) (.wrote 24)).2.1.protover = 60002 ∧
    (nc_msg_version wire (with_msg connB (cstr "version") (wire_ser_msg_version peer_version))
      (world0 bookA []) (.wrote 24)).2.2.sends = [(cstr "verack", [])] ∧
    (∃ mv, wire.deser_msg_version (wire_ser_msg_version peer_version) = some mv ∧
        mv.nServices &&& wire.NODE_NETWORK ≠ 0 ∧ mv.nonce ≠ wire.instance_nonce ∧
        (∃ buf, wire.message_str wire.netmagic (cstr "verack") [] = some buf) ∧
        ((with_msg connB (cstr "version") (wire_ser_msg_version peer_version)).write_q ≠ [] ∨
          sys_write.wrote 24 ≠ .error)) :=
  ⟨by decide, by decide, by decide,
   (version_accept wire (with_msg connB (cstr "version") (wire_ser_msg_version peer_version))
      (world0 bookA []) (.wrote 24) (by decide)).1.1 (by decide)⟩

theorem cstr_getaddr_ne : ∀ l : List (Bytes × Bytes), l ≠ l ++ [(cstr "getaddr", [])] := by
  intro l h
  have := congrArg List.length h
  simp at this

/-- C6 (as the code has it): on a connection that has seen `version` but not
`verack`, whose peer IP is not in the address book, an accepted `verack` sets
`seen_verack`, leaves the peer's address as the last element of the address
book with the rest of the sequence unchanged before it, and calls the send
path with `getaddr` exactly when `protover >= CADDR_TIME_VERSION` (no send
otherwise). -/
theorem verack_accept (E : ccoin) (conn : nc_conn) (w : net_world) (wrc : sys_write)
    (hmagic : memcmp_eq conn.msg.hdr.netmagic E.netmagic 4 = true)
    (hcmd : strncmp conn.msg.hdr.command (cstr "verack") 12 = 0)
    (hv : conn.seen_version = true) (hk : conn.seen_verack = false)
    (hip : peerman_has_addr w.peers conn.addr.ip = false)
    (_hacc : (nc_conn_message E conn w wrc).1 = true) :
    (nc_conn_message E conn w wrc).2.1.seen_verack = true ∧
    (nc_conn_message E conn w wrc).2.2.peers.addrlist = w.peers.addrlist ++ [conn.addr] ∧
    ((nc_conn_message E conn w wrc).2.2.sends = w.sends ++ [(cstr "getaddr", [])] ↔
      conn.protover ≥ E.CADDR_TIME_VERSION) ∧
    (conn.protover < E.CADDR_TIME_VERSION →
      (nc_conn_message E conn w wrc).2.2.sends = w.sends) := by
  have hne := verack_not_version _ hcmd
  have hm : nc_conn_message E conn w wrc = nc_msg_verack E conn w wrc := by
    simp [nc_conn_message, hmagic, hne, hv, hcmd]
  rw [hm]
  have hadd : (peerman_add w.peers conn.addr true).addrlist = w.peers.addrlist ++ [conn.addr] := by
    rw [peerman_add_fresh _ _ _ hip]; simp [__peerman_add]
  unfold nc_msg_verack
  rw [hk]
  simp only [Bool.false_eq_true, if_false]
  by_cases hp : conn.protover ≥ E.CADDR_TIME_VERSION
  · have hf := nc_conn_send_fields E { conn with seen_verack := true }
      { w with peers := peerman_add w.peers conn.addr true } (cstr "getaddr") [] wrc
    simp only at hf
    rw [if_pos hp]
    refine ⟨hf.2.1, ?_, ?_, ?_⟩
    · rw [hf.2.2.2.2.1]; exact hadd
    · rw [hf.2.2.2.2.2]; exact ⟨fun _ => hp, fun _ => rfl⟩
    · intro hlt; omega
  · rw [if_neg hp]
    refine ⟨rfl, hadd, ?_, fun _ => rfl⟩
    constructor
    · intro hh; exact absurd hh (cstr_getaddr_ne w.sends)
    · intro hh; exact absurd hh hp

/-- Witness for C6: the connection to 10.0.0.2 receives `verack` while the
book holds 10.0.0.1. -/
theorem verack_accept_witness :
    (nc_conn_message wire (with_msg connB_versioned (cstr "verack") [])
      (world0 bookA []) (.wrote 24)).2.1.seen_verack = true ∧
    (nc_conn_message wire (with_msg connB_versioned (cstr "verack") [])
      (world0 bookA []) (.wrote 24)).2.2.peers.addrlist = [addrA] ++ [addrB] ∧
    (nc_conn_message wire (with_msg connB_versioned (cstr "verack") [])
      (world0 bookA []) (.wrote 24)).2.2.sends = [] ++ [(cstr "getaddr", [])] :=
  have h := verack_accept wire (with_msg connB_versioned (cstr "verack") [])
    (world0 bookA []) (.wrote 24) (by decide) (by decide) (by decide) (by decide)
    (by decide) (by decide)
  ⟨h.1, h.2.1, h.2.2.1.2 (by decide)⟩

/-- C6 as stated fails: with 10.0.0.1 in the book, the accepted `verack` of
the connection to 10.0.0.2 (not in the book) leaves 10.0.0.1 first; the
peer's address is not the front element. -/
theorem verack_accept_counterexample :
    (with_msg connB_versioned (cstr "verack") []).seen_version = true ∧
    (with_msg connB_versioned (cstr "verack") []).seen_verack = false ∧
    peerman_has_addr bookA (with_msg connB_versioned (cstr "verack") []).addr.ip = false ∧
    (nc_conn_message wire (with_msg connB_versioned (cstr "verack") [])
      (world0 bookA []) (.wrote 24)).1 = true ∧
    (nc_conn_message wire (with_msg connB_versioned (cstr "verack") [])
      (world0 bookA []) (.wrote 24)).2.2.peers.addrlist ≠ addrB :: bookA.addrlist ∧
    (nc_conn_message wire (with_msg connB_versioned (cstr "verack") [])
      (world0 bookA []) (.wrote 24)).2.2.peers.addrlist.head? = some addrA := by
  decide

/-- C7: a `version` whose nonce is `instance_nonce` makes `nc_msg_version`
return false and leaves the world as it was (same address book, no send, no
byte written), whatever the version number, the service bits and the state of
the connection; dispatched through `nc_conn_got_msg` the connection is
freed. -/
theorem self_connect_rejected (E : ccoin) (conn : nc_conn) (w : net_world)
    (wrc : sys_write) (mv : msg_version)
    (hd : E.deser_msg_version (conn.msg.data.take conn.msg.hdr.data_len) = some mv)
    (hn : mv.nonce = E.instance_nonce) :
    (nc_msg_version E conn w wrc).1 = false ∧
    (nc_msg_version E conn w wrc).2.2 = w ∧
    (strncmp conn.msg.hdr.command (cstr "version") 12 = 0 →
      nc_conn_got_msg E conn w wrc = (none, w)) := by
  have hm : (nc_msg_version E conn w wrc).1 = false ∧ (nc_msg_version E conn w wrc).2.2 = w := by
    unfold nc_msg_version
    by_cases hsv : conn.seen_version = true
    · simp [hsv]
    · by_cases hs : mv.nServices &&& E.NODE_NETWORK = 0
      · simp [hsv, hd, hs]
      · simp [hsv, hd, hs, hn]
  refine ⟨hm.1, hm.2, ?_⟩
  intro hcmd
  unfold nc_conn_got_msg
  by_cases hv : E.message_valid conn.msg = true
  · by_cases hmagic : memcmp_eq conn.msg.hdr.netmagic E.netmagic 4 = true
    · have hmsg : nc_conn_message E conn w wrc = nc_msg_version E conn w wrc := by
        simp [nc_conn_message, hmagic, hcmd]
      rcases hr : nc_msg_version E conn w wrc with ⟨b, c, w1⟩
      rw [hr] at hm
      simp only at hm
      obtain ⟨hb, hw⟩ := hm
      subst hb hw
      simp [hv, hmsg, hr]
    · simp [hv, nc_conn_message, hmagic]
  · simp [hv]

/-- Witness for C7: a `version` with our own nonce and `NODE_NETWORK` set. -/
theorem self_connect_rejected_witness :
    (nc_msg_version wire (with_msg connB (cstr "version") (wire_ser_msg_version self_version))
      (world0 bookA []) (.wrote 24)).1 = false ∧
    (nc_msg_version wire (with_msg connB (cstr "version") (wire_ser_msg_version self_version))
      (world0 bookA []) (.wrote 24)).2.2 = world0 bookA [] ∧
    nc_conn_got_msg wire (with_msg connB (cstr "version") (wire_ser_msg_version self_version))
      (world0 bookA []) (.wrote 24) = (none, world0 bookA []) :=
  have h := self_connect_rejected wire
    (with_msg connB (cstr "version") (wire_ser_msg_version self_version))
    (world0 bookA []) (.wrote 24) self_version (by decide) (by decide)
  ⟨h.1, h.2.1, h.2.2 (by decide)⟩

/-- C8: when the parsed header declares more than 16 MiB, `nc_conn_got_header`
frees the connection (no body buffer, no body phase); when it declares at
most 16 MiB the connection stays, in the body phase, with a body buffer of
that length, the cursor at its start and `expected` equal to the declared
length.  The read event that completes the header consumes the header bytes
only and hands over to `nc_conn_got_header`, so on an oversized header the
connection is gone with every later byte still unread. -/
theorem got_header_limit (E : ccoin) (conn : nc_conn) :
    ((E.parse_message_hdr conn.hdrbuf).data_len > 16 * 1024 * 1024 →
      nc_conn_got_header E conn = none) ∧
    ((E.parse_message_hdr conn.hdrbuf).data_len ≤ 16 * 1024 * 1024 →
      ∃ c, nc_conn_got_header E conn = some c ∧
        c.reading_hdr = false ∧
        c.expected = (E.parse_message_hdr conn.hdrbuf).data_len ∧
        c.msg_p = .data 0 ∧
        c.msg.data.length = (E.parse_message_hdr conn.hdrbuf).data_len ∧
        c.msg.hdr = E.parse_message_hdr conn.hdrbuf) ∧
    (∀ (c0 : nc_conn) (w : net_world) (n : Nat) (wrc : sys_write),
      c0.reading_hdr = true → 0 < c0.expected → c0.expected ≤ n →
      c0.expected ≤ w.rx.length →
      conn = { store_read c0 (w.rx.take c0.expected) with expected := 0 } →
      nc_conn_read_evt E c0 w (some n) wrc =
        (nc_conn_got_header E conn, { w with rx := w.rx.drop c0.expected })) := by
  refine ⟨?_, ?_, ?_⟩
  · intro h
    simp [nc_conn_got_header, h]
  · intro h
    have h2 : ¬ (E.parse_message_hdr conn.hdrbuf).data_len > 16 * 1024 * 1024 := by omega
    have hg : nc_conn_got_header E conn =
        some { conn with
               msg := { hdr := E.parse_message_hdr conn.hdrbuf,
                        data := List.replicate (E.parse_message_hdr conn.hdrbuf).data_len 0 },
               msg_p := .data 0,
               expected := (E.parse_message_hdr conn.hdrbuf).data_len,
               reading_hdr := false } := by
      simp only [nc_conn_got_header, h2, if_false]
    exact ⟨_, hg, rfl, rfl, rfl, List.length_replicate _ _, rfl⟩
  · intro c0 w n wrc hr hpos hn hlen hconn
    subst hconn
    exact read_evt_completes_header E c0 w n wrc hr hpos hn hlen

/-- Witness for C8: headers declaring 16 MiB + 1 and exactly 16 MiB; and the
oversized header arriving on a fresh connection followed by body bytes. -/
theorem got_header_limit_witness :
    nc_conn_got_header wire
      (with_hdr connB (hdr_declaring (cstr "addr") (16 * 1024 * 1024 + 1))) = none ∧
    (∃ c, nc_conn_got_header wire
        (with_hdr connB (hdr_declaring (cstr "addr") (16 * 1024 * 1024))) = some c ∧
      c.reading_hdr = false ∧
      c.expected = (wire.parse_message_hdr
        (with_hdr connB (hdr_declaring (cstr "addr") (16 * 1024 * 1024))).hdrbuf).data_len ∧
      c.msg_p = .data 0 ∧
      c.msg.data.length = (wire.parse_message_hdr
        (with_hdr connB (hdr_declaring (cstr "addr") (16 * 1024 * 1024))).hdrbuf).data_len ∧
      c.msg.hdr = wire.parse_message_hdr
        (with_hdr connB (hdr_declaring (cstr "addr") (16 * 1024 * 1024))).hdrbuf) ∧
    nc_conn_read_evt wire connB
      (world0 bookA (hdr_declaring (cstr "addr") (16 * 1024 * 1024 + 1) ++ [1, 2, 3]))
      (some 100) (.wrote 0) =
      (none, world0 bookA [1, 2, 3]) :=
  ⟨(got_header_limit wire
      (with_hdr connB (hdr_declaring (cstr "addr") (16 * 1024 * 1024 + 1)))).1 (by decide),
   (got_header_limit wire
      (with_hdr connB (hdr_declaring (cstr "addr") (16 * 1024 * 1024)))).2.1 (by decide),
   ((got_header_limit wire
      (with_hdr connB (hdr_declaring (cstr "addr") (16 * 1024 * 1024 + 1)))).2.2
        connB (world0 bookA (hdr_declaring (cstr "addr") (16 * 1024 * 1024 + 1) ++ [1, 2, 3]))
        100 (.wrote 0) (by decide) (by decide) (by decide) (by decide) (by decide)).trans
     (by decide)⟩

/-! ## The write queue (`net.c`) -/

theorem written_loop_exact (buf : Bytes) (p : Nat) (hp : p < buf.length)
    (hl : buf.length < 2 ^ 32) :
    nc_conn_written_loop [buf] p (buf.length - p) = some ([], 0) := by
  obtain ⟨b, hb⟩ : ∃ b, buf.length - p = b + 1 := ⟨buf.length - p - 1, by omega⟩
  have hleft : (buf.length + 2 ^ 32 - p % 2 ^ 32) % 2 ^ 32 = b + 1 := by
    norm_num at hl ⊢
    omega
  rw [hb]
  simp only [nc_conn_written_loop, hleft]
  simp [nc_conn_written_loop]

theorem world_evreg_nil (w : net_world) (hreg : w.evreg = []) :
    ({ w with evreg := [] } : net_world) = w := by
  cases w
  simp only at hreg
  subst hreg
  rfl

theorem out_wrstart_ok (c : nc_conn) (w : net_world) (hreg : w.evreg = []) :
    out_wrstart c w = ({ c with ev := false, write_ev := true }, w) := by
  obtain ⟨b, l, h, hok⟩ := out_wrstart_frame c w
  rw [h, (hok hreg).1, (hok hreg).2, world_evreg_nil w hreg]

theorem read_enable_ok (c : nc_conn) (w : net_world) (hreg : w.evreg = []) :
    (nc_conn_read_enable c w).2 = ({ c with ev := true }, w) := by
  obtain ⟨b, l, h, hok⟩ := read_enable_frame c w
  rw [h, (hok hreg).1, (hok hreg).2, world_evreg_nil w hreg]

/-- When every event registration succeeds (`w.evreg = []`): on a connection
with an empty write queue and `write_partial = 0`, sending a message of
`N < 2^32` bytes of which the optimistic `write` takes only `K < N` (or
would block, `K = 0`) returns true and leaves the message queued with
`write_partial = K`: the unsent bytes are the last `N - K` of the message,
the read event is off and the write event on.  The next write event offers
exactly those bytes; if `writev` takes all `N - K`, the queue is empty,
`write_partial = 0`, the write event is off and the read event on again, and
the socket has received the whole message. -/
theorem partial_write_drains (E : ccoin) (conn : nc_conn) (w : net_world)
    (command data msg : Bytes) (K : Nat) (wrc : sys_write)
    (hreg : w.evreg = [])
    (hq : conn.write_q = []) (hp : conn.write_partial = 0)
    (hm : E.message_str E.netmagic command data = some msg)
    (hK : K < msg.length) (hN : msg.length < 2 ^ 32)
    (hw : wrc = .wrote K ∨ (wrc = .again ∧ K = 0)) :
    (nc_conn_send E conn w command data wrc).1 = true ∧
    unsent (nc_conn_send E conn w command data wrc).2.1 = msg.drop K ∧
    (nc_conn_send E conn w command data wrc).2.1.ev = false ∧
    (nc_conn_send E conn w command data wrc).2.1.write_ev = true ∧
    (nc_conn_send E conn w command data wrc).2.2.tx = w.tx ++ msg.take K ∧
    iov_bytes (nc_conn_build_iov (nc_conn_send E conn w command data wrc).2.1.write_q
      ( nc_conn.write_partial (nc_conn_send E conn w command data wrc).2.1)) = msg.drop K ∧
    ∃ c2 w2,
      nc_conn_write_evt (nc_conn_send E conn w command data wrc).2.1
        (nc_conn_send E conn w command data wrc).2.2 (.wrote (msg.length - K)) =
        some (some c2, w2) ∧
      c2.write_q = [] ∧ c2.write_partial = 0 ∧ c2.write_ev = false ∧ c2.ev = true ∧
      unsent c2 = [] ∧ w2.tx = w.tx ++ msg := by
  have hK32 : K % 2 ^ 32 = K := Nat.mod_eq_of_lt (by omega)
  have hsend : nc_conn_send E conn w command data wrc =
      (true, { conn with write_q := [msg], write_partial := K, ev := false, write_ev := true },
        { w with sends := w.sends ++ [(command, data)], tx := w.tx ++ msg.take K }) := by
    unfold nc_conn_send
    rcases hw with hw | ⟨hw, hK0⟩
    · subst hw
      have hne : K ≠ msg.length := by omega
      simp only [hm, hq, List.isEmpty_nil, Bool.not_true, Bool.false_eq_true, if_false, hne,
        List.nil_append, hK32]
      rw [out_wrstart_ok]
      exact hreg
    · subst hw
      subst hK0
      simp only [hm, hq, List.isEmpty_nil, Bool.not_true, Bool.false_eq_true, if_false,
        List.nil_append]
      rw [out_wrstart_ok]
      · simp [← hp]
      · exact hreg
  have hiov : iov_bytes (nc_conn_build_iov [msg] K) = msg.drop K := by
    have hlen : (msg.length + 2 ^ 64 - K % 2 ^ 64) % 2 ^ 64 = msg.length - K := by
      norm_num at hN ⊢
      omega
    simp only [nc_conn_build_iov, build_iov_rest, iov_bytes, hlen, List.map_cons, List.map_nil,
      List.flatten_cons, List.flatten_nil, List.append_nil]
    apply List.take_of_length_le
    simp
  rw [hsend]
  refine ⟨rfl, ?_, rfl, rfl, rfl, hiov, ?_⟩
  · simp [unsent]
  · have hloop := written_loop_exact msg K hK hN
    refine ⟨{ conn with write_q := [], write_partial := 0, ev := true, write_ev := false },
      { w with sends := w.sends ++ [(command, data)], tx := w.tx ++ msg }, ?_,
      rfl, rfl, rfl, rfl, by simp [unsent], rfl⟩
    have htk : (msg.drop K).take (msg.length - K) = msg.drop K := by
      apply List.take_of_length_le
      simp
    simp only [nc_conn_write_evt, nc_conn_written, hloop, hiov, List.isEmpty_nil, if_true]
    rw [read_enable_ok]
    · simp only [nc_conn_write_disable, htk, List.append_assoc, List.take_append_drop]
    · exact hreg

/-- The run of `partial_write_drains` on a 24-byte `getaddr` of which the
socket first takes 10 bytes, then the other 14, every registration
succeeding. -/
theorem partial_write_drains_sample :
    (nc_conn_send wire connB_versioned (world0 bookA []) (cstr "getaddr") [] (.wrote 10)).1
      = true ∧
    unsent (nc_conn_send wire connB_versioned (world0 bookA []) (cstr "getaddr") []
      (.wrote 10)).2.1 = [114, 0, 0, 0, 0, 0, 0, 0, 0, 0, 0, 0, 0, 0] ∧
    ∃ c2 w2,
      nc_conn_write_evt
        (nc_conn_send wire connB_versioned (world0 bookA []) (cstr "getaddr") []
          (.wrote 10)).2.1
        (nc_conn_send wire connB_versioned (world0 bookA []) (cstr "getaddr") []
          (.wrote 10)).2.2 (.wrote 14) = some (some c2, w2) ∧
      c2.write_q = [] ∧ c2.write_partial = 0 ∧ c2.write_ev = false ∧ c2.ev = true ∧
      unsent c2 = [] ∧
      w2.tx = [] ++ [249, 190, 180, 217, 103, 101, 116, 97, 100, 100, 114, 0, 0, 0, 0, 0,
        0, 0, 0, 0, 0, 0, 0, 0] :=
  have h := partial_write_drains wire connB_versioned (world0 bookA []) (cstr "getaddr") []
    [249, 190, 180, 217, 103, 101, 116, 97, 100, 100, 114, 0, 0, 0, 0, 0, 0, 0, 0, 0,
     0, 0, 0, 0] 10 (.wrote 10) (by decide) (by decide) (by decide) (by decide) (by decide)
    (by decide) (Or.inl rfl)
  ⟨h.1, h.2.1.trans (by decide), h.2.2.2.2.2.2⟩

/-- C9: the events are not switched as stated when an event registration
fails.  A connection with an empty write queue sends a 24-byte `getaddr`;
the optimistic `write` takes 10 bytes.  First world: `event_new` for the
write event returns `NULL`.  `nc_conn_write_enable` returns false,
`nc_conn_send` does not look at it and returns true: 14 bytes are queued,
the read event is off and the write event is not registered.  Second world:
the write event is registered, the next `writev` takes the 14 bytes, and
`event_add` for the read event fails: the queue is empty, the write event is
off and the read event is not registered. -/
theorem partial_write_unregistered :
    connB_versioned.write_q = [] ∧ connB_versioned.write_partial = 0 ∧
    (nc_conn_send wire connB_versioned (world_evreg bookA [.new_failed])
        (cstr "getaddr") [] (.wrote 10)).1 = true ∧
    unsent (nc_conn_send wire connB_versioned (world_evreg bookA [.new_failed])
        (cstr "getaddr") [] (.wrote 10)).2.1 = [114, 0, 0, 0, 0, 0, 0, 0, 0, 0, 0, 0, 0, 0] ∧
    (nc_conn_send wire connB_versioned (world_evreg bookA [.new_failed])
        (cstr "getaddr") [] (.wrote 10)).2.1.ev = false ∧
    (nc_conn_send wire connB_versioned (world_evreg bookA [.new_failed])
        (cstr "getaddr") [] (.wrote 10)).2.1.write_ev = false ∧
    (nc_conn_send wire connB_versioned (world_evreg bookA [.ok, .add_failed])
        (cstr "getaddr") [] (.wrote 10)).2.1.write_ev = true ∧
    (nc_conn_write_evt
        (nc_conn_send wire connB_versioned (world_evreg bookA [.ok, .add_failed])
          (cstr "getaddr") [] (.wrote 10)).2.1
        (nc_conn_send wire connB_versioned (world_evreg bookA [.ok, .add_failed])
          (cstr "getaddr") [] (.wrote 10)).2.2 (.wrote 14)).map
      (fun r => r.1.map (fun c => (c.write_q, nc_conn.write_partial c, c.write_ev, c.ev))) =
      some (some ([], 0, false, false)) := by
  decide

/-! ## Persisting and loading the address book (`peerman.c`) -/

theorem peerman_read_rec_size (E : ccoin) (peers : peer_manager) (m : p2p_message)
    (h : m.hdr.data_len ≠ E.sizeof_bp_address) : peerman_read_rec E peers m = none := by
  simp [peerman_read_rec, h]

theorem peerman_read_first_record_size (E : ccoin) (data rest : Bytes) (m : p2p_message)
    (h1 : E.mbr_read data = .msg m rest)
    (h2 : m.hdr.data_len ≠ E.sizeof_bp_address) :
    peerman_read E (some data) = some none := by
  simp [peerman_read, peerman_read_loop, h1, peerman_read_rec_size E peerman_new m h2]

/-- C10 on the book holding 10.0.0.1:8333: `ser_peerman` writes one record, a
24-byte header with command `CAddress` declaring the 30 payload bytes that
`ser_bp_addr` produced; `mbr_read` returns that record, its command passes
the `strncmp` test, but its `data_len` (30) is not `sizeof(struct bp_address)`
(40), so `peerman_read_rec` returns false and `peerman_read` returns `NULL`.
The same holds for a book of two addresses.  Were the record compared with
30, the load would return the original sequence. -/
theorem persisted_book_does_not_load :
    bookA = peerman_add peerman_new addrA false ∧
    (ser_peerman wire bookA).map List.length = some 54 ∧
    (wire.ser_bp_addr wire.CADDR_TIME_VERSION addrA).length = 30 ∧
    wire.sizeof_bp_address = 40 ∧
    (∃ m, wire.mbr_read ((ser_peerman wire bookA).getD []) = .msg m [] ∧
      strncmp m.hdr.command (cstr "CAddress") 12 = 0 ∧
      m.hdr.data_len = 30 ∧
      wire.deser_bp_addr wire.CADDR_TIME_VERSION m.data = some addrA ∧
      peerman_read_rec wire peerman_new m = none) ∧
    peerman_read wire (ser_peerman wire bookA) = some none ∧
    peerman_read wire (ser_peerman wire (peerman_add bookA addrB true)) = some none ∧
    peerman_read { wire with sizeof_bp_address := 30 }
      (ser_peerman wire (peerman_add bookA addrB true)) =
      some (some (peerman_add bookA addrB true)) := by
  refine ⟨rfl, by decide, by decide, rfl, ?_, by decide, by decide, by decide⟩
  exact ⟨{ hdr := wire_parse_message_hdr (((ser_peerman wire bookA).getD []).take 24),
           data := (((ser_peerman wire bookA).getD []).drop 24).take 30 },
    by decide, by decide, by decide, by decide, by decide⟩

/-! ## The address book: popping, and the set kept in step with the sequence -/

theorem addr_equal_symm (a b : Bytes) : addr_equal a b = addr_equal b a := by
  simp only [addr_equal, eq_comm]

theorem addr_equal_trans (a b c : Bytes) (h1 : addr_equal a b = true)
    (h2 : addr_equal b c = true) : addr_equal a c = true := by
  rw [addr_equal_iff] at *
  exact h1.trans h2

theorem lookup_remove (m : List Bytes) (k key : Bytes) :
    g_hash_table_lookup_extended (g_hash_table_remove m k) key = true ↔
      (g_hash_table_lookup_extended m key = true ∧ addr_equal key k = false) := by
  rw [lookup_iff, lookup_iff]
  unfold g_hash_table_remove
  constructor
  · rintro ⟨k1, hk1, he⟩
    rw [List.mem_filter] at hk1
    obtain ⟨hm, hne⟩ := hk1
    refine ⟨⟨k1, hm, he⟩, ?_⟩
    cases hc : addr_equal key k with
    | false => rfl
    | true =>
      have := addr_equal_trans _ _ _ he hc
      simp [this] at hne
  · rintro ⟨⟨k1, hm, he⟩, hne⟩
    refine ⟨k1, ?_, he⟩
    rw [List.mem_filter]
    refine ⟨hm, ?_⟩
    cases hc : addr_equal k1 k with
    | false => rfl
    | true =>
      have h3 : addr_equal key k1 = true := by rw [addr_equal_symm]; exact he
      have := addr_equal_trans _ _ _ h3 hc
      rw [this] at hne
      exact absurd hne (by decide)

theorem lookup_remove_self (m : List Bytes) (k : Bytes) :
    g_hash_table_lookup_extended (g_hash_table_remove m k) k = false := by
  cases h : g_hash_table_lookup_extended (g_hash_table_remove m k) k with
  | false => rfl
  | true =>
    have h2 := ((lookup_remove m k k).1 h).2
    have h3 : addr_equal k k = true := (addr_equal_iff k k).2 rfl
    rw [h3] at h2
    exact absurd h2 (by decide)

theorem peerman_pop_nil (peers : peer_manager) (h : peers.addrlist = []) :
    peerman_pop peers = (none, peers) := by
  unfold peerman_pop
  rw [h]

theorem peerman_pop_cons (peers : peer_manager) (a : bp_address) (rest : List bp_address)
    (h : peers.addrlist = a :: rest) :
    peerman_pop peers =
      (some a, { addrlist := rest, map_addr := g_hash_table_remove peers.map_addr a.ip }) := by
  unfold peerman_pop
  rw [h]

theorem pop_cons_facts (peers : peer_manager) (a : bp_address) (rest : List bp_address)
    (h : peers.addrlist = a :: rest) :
    (peerman_pop peers).1 = some a ∧
    (peerman_pop peers).2.addrlist = rest ∧
    peerman_has_addr (peerman_pop peers).2 a.ip = false := by
  rw [peerman_pop_cons peers a rest h]
  exact ⟨rfl, rfl, lookup_remove_self _ _⟩

/-- C14: on an empty sequence `peerman_pop` returns `NULL` and the book is
unchanged (sequence and set); otherwise it returns the first element, the new
sequence is the old one without it, in the same order, and the returned
address's IP is no longer in the membership set. -/
theorem peerman_pop_spec (peers : peer_manager) :
    (peers.addrlist = [] → peerman_pop peers = (none, peers)) ∧
    (∀ (a : bp_address) (rest : List bp_address), peers.addrlist = a :: rest →
      (peerman_pop peers).1 = some a ∧
      (peerman_pop peers).2.addrlist = rest ∧
      peerman_has_addr (peerman_pop peers).2 a.ip = false) := by
  exact ⟨peerman_pop_nil peers, pop_cons_facts peers⟩

/-- Witness for C14: the empty book, and the book `[A, B, C]`. -/
theorem peerman_pop_spec_witness :
    peerman_pop peerman_new = (none, peerman_new) ∧
    ((peerman_pop bookABC).1 = some addrA ∧
      (peerman_pop bookABC).2.addrlist = [addrB, addrC] ∧
      peerman_has_addr (peerman_pop bookABC).2 addrA.ip = false) :=
  ⟨(peerman_pop_spec peerman_new).1 (by decide),
   (peerman_pop_spec bookABC).2 addrA [addrB, addrC] (by decide)⟩

/-- C13 (as the code has it): popping the front address `A` of a non-empty
book and then calling `peerman_add(book, A, known_working = true)` puts `A`
at the back: the sequence is the rest followed by `A`, so `[A, B, C]` becomes
`[B, C]` after the pop and `[B, C, A]` after the add.  (With
`known_working = false` the add restores the original sequence.) -/
theorem pop_then_add (peers : peer_manager) (a : bp_address) (rest : List bp_address)
    (h : peers.addrlist = a :: rest) :
    (peerman_pop peers).1 = some a ∧
    (peerman_pop peers).2.addrlist = rest ∧
    (peerman_add (peerman_pop peers).2 a true).addrlist = rest ++ [a] ∧
    (peerman_add (peerman_pop peers).2 a false).addrlist = peers.addrlist := by
  have hp := pop_cons_facts peers a rest h
  refine ⟨hp.1, hp.2.1, ?_, ?_⟩
  · rw [peerman_add_fresh _ _ _ hp.2.2]
    simp [__peerman_add, hp.2.1]
  · rw [peerman_add_fresh _ _ _ hp.2.2]
    simp [__peerman_add, hp.2.1, h]

/-- Witness for C13: the book `[A, B, C]`. -/
theorem pop_then_add_witness :
    (peerman_pop bookABC).1 = some addrA ∧
    (peerman_pop bookABC).2.addrlist = [addrB, addrC] ∧
    (peerman_add (peerman_pop bookABC).2 addrA true).addrlist = [addrB, addrC] ++ [addrA] ∧
    (peerman_add (peerman_pop bookABC).2 addrA false).addrlist = bookABC.addrlist :=
  pop_then_add bookABC addrA [addrB, addrC] (by decide)

/-- C13 as stated fails: the book `[A, B, C]` has pairwise distinct IPs, and
after popping `A` and adding it back as known working the sequence is
`[B, C, A]`, not `[A, B, C]`. -/
theorem pop_then_add_counterexample :
    bookABC.addrlist = [addrA, addrB, addrC] ∧
    (addr_equal addrA.ip addrB.ip = false ∧ addr_equal addrA.ip addrC.ip = false ∧
      addr_equal addrB.ip addrC.ip = false) ∧
    (peerman_pop bookABC).1 = some addrA ∧
    (peerman_pop bookABC).2.addrlist = [addrB, addrC] ∧
    (peerman_add (peerman_pop bookABC).2 addrA true).addrlist = [addrB, addrC, addrA] ∧
    (peerman_add (peerman_pop bookABC).2 addrA true).addrlist ≠ bookABC.addrlist := by
  decide

theorem keys_distinct_insert (m : List Bytes) (k : Bytes) (h : keys_distinct m) :
    keys_distinct (g_hash_table_insert m k) := by
  unfold g_hash_table_insert
  by_cases hl : g_hash_table_lookup_extended m k = true
  · rw [if_pos hl]; exact h
  · rw [if_neg hl]
    unfold keys_distinct at *
    refine List.pairwise_append.2 ⟨h, List.pairwise_singleton _ _, ?_⟩
    intro a ha b hb
    rw [List.mem_singleton] at hb
    subst hb
    cases hc : addr_equal a b with
    | false => rfl
    | true => exact absurd ((lookup_iff m b).2 ⟨a, ha, hc⟩) hl

theorem size_insert_fresh (m : List Bytes) (k : Bytes)
    (hl : g_hash_table_lookup_extended m k = false) :
    g_hash_table_size (g_hash_table_insert m k) = g_hash_table_size m + 1 := by
  simp [g_hash_table_insert, hl, g_hash_table_size]

theorem keys_distinct_remove (m : List Bytes) (k : Bytes) (h : keys_distinct m) :
    keys_distinct (g_hash_table_remove m k) :=
  List.Pairwise.filter _ h

theorem remove_absent (m : List Bytes) (k : Bytes)
    (hl : g_hash_table_lookup_extended m k = false) : g_hash_table_remove m k = m := by
  unfold g_hash_table_remove
  rw [List.filter_eq_self]
  intro a ha
  cases hc : addr_equal a k with
  | false => rfl
  | true =>
    have := (lookup_iff m k).2 ⟨a, ha, hc⟩
    rw [hl] at this
    exact absurd this (by decide)

theorem size_remove (m : List Bytes) (k : Bytes) (hd : keys_distinct m)
    (hl : g_hash_table_lookup_extended m k = true) :
    g_hash_table_size (g_hash_table_remove m k) + 1 = g_hash_table_size m := by
  induction m with
  | nil => simp [g_hash_table_lookup_extended] at hl
  | cons a l ih =>
    have hd2 := List.pairwise_cons.1 hd
    by_cases hak : addr_equal a k = true
    · have hl2 : g_hash_table_lookup_extended l k = false := by
        cases hc : g_hash_table_lookup_extended l k with
        | false => rfl
        | true =>
          obtain ⟨b, hb, hbk⟩ := (lookup_iff l k).1 hc
          have h1 := hd2.1 b hb
          have h2 : addr_equal k b = true := by rw [addr_equal_symm]; exact hbk
          have := addr_equal_trans _ _ _ hak h2
          rw [h1] at this
          exact absurd this (by decide)
      have hr := remove_absent l k hl2
      unfold g_hash_table_remove at hr ⊢
      simp [List.filter_cons, hak, hr, g_hash_table_size]
    · have hl2 : g_hash_table_lookup_extended l k = true := by
        obtain ⟨b, hb, hbk⟩ := (lookup_iff (a :: l) k).1 hl
        rcases List.mem_cons.1 hb with hb | hb
        · subst hb; exact absurd hbk hak
        · exact (lookup_iff l k).2 ⟨b, hb, hbk⟩
      have ih2 := ih hd2.2 hl2
      unfold g_hash_table_remove g_hash_table_size at ih2 ⊢
      simp only [Bool.not_eq_true] at hak
      simp [List.filter_cons, hak]
      omega

theorem book_ok_new : book_ok peerman_new :=
  ⟨in_sync_new, List.Pairwise.nil, List.Pairwise.nil, rfl⟩

theorem book_ok_add (p : peer_manager) (a : bp_address) (kw : Bool) (h : book_ok p) :
    book_ok (peerman_add p a kw) := by
  obtain ⟨hs, hd, hk, hn⟩ := h
  refine ⟨in_sync_add p a kw hs, distinct_add p a kw hs hd, ?_, ?_⟩
  · by_cases hh : peerman_has_addr p a.ip = true
    · rw [peerman_add_noop p a kw hh]; exact hk
    · rw [Bool.not_eq_true] at hh
      rw [peerman_add_fresh p a kw hh]
      exact keys_distinct_insert _ _ hk
  · by_cases hh : peerman_has_addr p a.ip = true
    · rw [peerman_add_noop p a kw hh]; exact hn
    · rw [Bool.not_eq_true] at hh
      rw [peerman_add_fresh p a kw hh]
      show g_hash_table_size (g_hash_table_insert p.map_addr a.ip) = _
      rw [size_insert_fresh _ _ hh, hn]
      cases kw <;> simp [__peerman_add]

theorem in_sync_pop (p : peer_manager) (hs : in_sync p) (hd : distinct_ips p.addrlist) :
    in_sync (peerman_pop p).2 ∧ distinct_ips (peerman_pop p).2.addrlist := by
  cases hl : p.addrlist with
  | nil =>
    rw [peerman_pop_nil p hl]
    exact ⟨hs, hd⟩
  | cons a rest =>
    rw [peerman_pop_cons p a rest hl]
    rw [hl] at hd
    have hd2 := List.pairwise_cons.1 hd
    refine ⟨?_, hd2.2⟩
    intro key
    show g_hash_table_lookup_extended (g_hash_table_remove p.map_addr a.ip) key = true ↔
      ∃ e ∈ rest, addr_equal e.ip key = true
    rw [lookup_remove, hs key, hl]
    constructor
    · rintro ⟨⟨e, he, hek⟩, hne⟩
      rcases List.mem_cons.1 he with he | he
      · subst he
        rw [addr_equal_symm] at hne
        rw [hne] at hek
        exact absurd hek (by decide)
      · exact ⟨e, he, hek⟩
    · rintro ⟨e, he, hek⟩
      refine ⟨⟨e, List.mem_cons_of_mem _ he, hek⟩, ?_⟩
      cases hc : addr_equal key a.ip with
      | false => rfl
      | true =>
        have h1 := addr_equal_trans _ _ _ hek hc
        have h2 := hd2.1 e he
        rw [addr_equal_symm] at h2
        rw [h2] at h1
        exact absurd h1 (by decide)

theorem book_ok_pop (p : peer_manager) (h : book_ok p) : book_ok (peerman_pop p).2 := by
  obtain ⟨hs, hd, hk, hn⟩ := h
  have h1 := in_sync_pop p hs hd
  refine ⟨h1.1, h1.2, ?_, ?_⟩
  · cases hl : p.addrlist with
    | nil => rw [peerman_pop_nil p hl]; exact hk
    | cons a rest =>
      rw [peerman_pop_cons p a rest hl]
      exact keys_distinct_remove _ _ hk
  · cases hl : p.addrlist with
    | nil => rw [peerman_pop_nil p hl, hn, hl]
    | cons a rest =>
      rw [peerman_pop_cons p a rest hl]
      have hin : g_hash_table_lookup_extended p.map_addr a.ip = true :=
        (hs a.ip).2 ⟨a, by rw [hl]; exact List.mem_cons_self _ _, (addr_equal_iff _ _).2 rfl⟩
      have := size_remove p.map_addr a.ip hk hin
      rw [hn, hl] at this
      simp only [List.length_cons] at this
      show g_hash_table_size (g_hash_table_remove p.map_addr a.ip) = rest.length
      omega

theorem book_ok_ops (ops : List book_op) (p : peer_manager) (h : book_ok p) :
    book_ok (apply_ops p ops) := by
  induction ops generalizing p with
  | nil => exact h
  | cons op rest ih =>
    cases op with
    | add a kw => exact ih _ (book_ok_add p a kw h)
    | pop => exact ih _ (book_ok_pop p h)

theorem book_ok_read_rec (E : ccoin) (p q : peer_manager) (m : p2p_message)
    (h : book_ok p) (hr : peerman_read_rec E p m = some q) : book_ok q := by
  unfold peerman_read_rec at hr
  split at hr
  · exact absurd hr (by simp)
  · split at hr
    · exact absurd hr (by simp)
    · rename_i addr _
      have hadd := book_ok_add p addr true h
      unfold peerman_add at hadd
      by_cases hh : peerman_has_addr p addr.ip = true
      · simp [hh] at hr
        subst hr; exact h
      · simp [hh] at hr hadd
        subst hr; exact hadd

theorem book_ok_read_loop (E : ccoin) (fuel : Nat) (buf : Bytes) (p q : peer_manager)
    (h : book_ok p) (hr : peerman_read_loop E fuel buf p = some (some q)) : book_ok q := by
  induction fuel generalizing buf p with
  | zero => simp [peerman_read_loop] at hr
  | succ n ih =>
    unfold peerman_read_loop at hr
    cases hm : E.mbr_read buf with
    | eof =>
      rw [hm] at hr
      simp only [Option.some.injEq] at hr
      subst hr; exact h
    | error =>
      rw [hm] at hr
      simp at hr
    | msg m rest =>
      rw [hm] at hr
      simp only at hr
      cases hp1 : peerman_read_rec E p m with
      | none =>
        rw [hp1] at hr
        simp at hr
      | some p1 =>
        rw [hp1] at hr
        exact ih rest p1 (book_ok_read_rec E p p1 m h hp1) hr

theorem book_ok_read (E : ccoin) (file : Option Bytes) (q : peer_manager)
    (ops : List book_op) (hr : peerman_read E file = some (some q)) :
    book_ok (apply_ops q ops) := by
  cases file with
  | none => simp [peerman_read] at hr
  | some data =>
    exact book_ok_ops ops q (book_ok_read_loop E _ data peerman_new q book_ok_new hr)

/-- C12 on a seed list that repeats an IP (10.0.0.1 on two ports):
`peerman_seed` enters both addresses without the `peerman_has_addr` test, so
the sequence holds the IP twice while the set holds it once (size 1, length
2).  After one `peerman_pop` the IP is still in the sequence but no longer in
the set, and `peerman_add` enters it once more. -/
theorem seed_repeats_break_sync :
    addr_equal addrA.ip addrA2.ip = true ∧
    (peerman_seed [addrA, addrA2]).addrlist = [addrA2, addrA] ∧
    g_hash_table_size (peerman_seed [addrA, addrA2]).map_addr = 1 ∧
    (peerman_seed [addrA, addrA2]).addrlist.length = 2 ∧
    (peerman_pop (peerman_seed [addrA, addrA2])).2.addrlist = [addrA] ∧
    peerman_has_addr (peerman_pop (peerman_seed [addrA, addrA2])).2 addrA.ip = false ∧
    (apply_ops (peerman_seed [addrA, addrA2]) [.pop, .add addrA2 true]).addrlist
      = [addrA, addrA2] := by
  decide

/-! ## Loading: all or nothing (`peerman.c`) -/

set_option maxRecDepth 8000

theorem read_rec_none_iff (E : ccoin) (p : peer_manager) (m : p2p_message) :
    peerman_read_rec E p m = none ↔ bad_record E m := by
  unfold peerman_read_rec bad_record
  by_cases h1 : strncmp m.hdr.command (cstr "CAddress") 12 ≠ 0
  · simp [h1]
  · by_cases h2 : m.hdr.data_len ≠ E.sizeof_bp_address
    · simp [h2]
    · rw [if_neg (by tauto)]
      cases hd : E.deser_bp_addr E.CADDR_TIME_VERSION (m.data.take m.hdr.data_len) with
      | none => simp
      | some a =>
        have : ¬ (strncmp m.hdr.command (cstr "CAddress") 12 ≠ 0 ∨
            m.hdr.data_len ≠ E.sizeof_bp_address ∨ False) := by tauto
        by_cases hh : peerman_has_addr p a.ip = true <;> simp [hh, this] <;> tauto

theorem read_loop_bad (E : ccoin) (fuel : Nat) (buf : Bytes) (p : peer_manager)
    (h : ∃ m ∈ stream_records E fuel buf, bad_record E m) :
    peerman_read_loop E fuel buf p = some none := by
  induction fuel generalizing buf p with
  | zero => simp [stream_records] at h
  | succ n ih =>
    unfold stream_records at h
    unfold peerman_read_loop
    cases hm : E.mbr_read buf with
    | eof => rw [hm] at h; simp at h
    | error => rfl
    | msg m rest =>
      rw [hm] at h
      simp only at h ⊢
      cases hp1 : peerman_read_rec E p m with
      | none => rfl
      | some p1 =>
        obtain ⟨b, hb, hbad⟩ := h
        rcases List.mem_cons.1 hb with hb | hb
        · subst hb
          have := (read_rec_none_iff E p b).2 hbad
          rw [hp1] at this
          exact absurd this (by simp)
        · exact ih rest p1 ⟨b, hb, hbad⟩

/-- C11: when some record that `mbr_read` hands out from the stream has a
command other than `CAddress`, a `data_len` other than
`sizeof(struct bp_address)`, or a payload that does not decode,
`peerman_read` returns `NULL`, however many accepted records come before
it. -/
theorem load_all_or_nothing (E : ccoin) (data : Bytes)
    (h : ∃ m ∈ stream_records E (data.length + 1) data, bad_record E m) :
    peerman_read E (some data) = some none :=
  read_loop_bad E (data.length + 1) data peerman_new h

/-- Witness for C11: two records that load (a book of two entries), then the
same two followed by a record whose command is `verack`. -/
theorem load_all_or_nothing_witness :
    (peerman_read wire (some (padded_record addrA ++ padded_record addrB))).map
      (fun r => r.map (fun p => p.addrlist)) = some (some [addrA, addrB]) ∧
    peerman_read wire
      (some (padded_record addrA ++ padded_record addrB ++ foreign_record)) = some none :=
  ⟨by decide,
   load_all_or_nothing wire (padded_record addrA ++ padded_record addrB ++ foreign_record)
     ⟨{ hdr := wire_parse_message_hdr foreign_record, data := [] }, by decide,
       Or.inl (by decide)⟩⟩

/-- C20: `ser_peerman` on a book with no addresses gives the empty byte
stream; and when `mbr_read` reports end of input on an empty buffer,
`peerman_read` of that stream returns a book with an empty sequence and an
empty set. -/
theorem empty_book_roundtrip (E : ccoin) (peers : peer_manager)
    (h : peers.addrlist = []) (heof : E.mbr_read [] = .eof) :
    ser_peerman E peers = some [] ∧
    stream_records E 1 [] = [] ∧
    peerman_read E (ser_peerman E peers) = some (some { map_addr := [], addrlist := [] }) := by
  have hs : ser_peerman E peers = some [] := by
    simp [ser_peerman, h, ser_peerman_loop]
  refine ⟨hs, ?_, ?_⟩
  · simp [stream_records, heof]
  · rw [hs]
    simp [peerman_read, peerman_read_loop, heof, peerman_new]

/-- Witness for C20: the empty book with the sample library. -/
theorem empty_book_roundtrip_witness :
    ser_peerman wire peerman_new = some [] ∧
    stream_records wire 1 [] = [] ∧
    peerman_read wire (ser_peerman wire peerman_new) =
      some (some { map_addr := [], addrlist := [] }) :=
  empty_book_roundtrip wire peerman_new (by decide) (by decide)

/-! ## Start-up: where the book comes from (`net.c`) -/

/-- C18 (as the code has it): `network_child` takes the loaded book when
`peerman_read` returns one, and otherwise, whenever `peerman_read` returns
`NULL`, it takes the seed book and calls `peerman_write` on it.  That is the
case when the peers file is absent, and equally when it exists and one of
its records is refused: the worker falls back to the seed and writes the
seed book over the peers file. -/
theorem seed_fallback (E : ccoin) (filename : Bool) (file : Option Bytes)
    (seedlist : List bp_address) (wr_ok : Bool) :
    (∀ q, peerman_read E (if filename then file else none) = some (some q) →
      network_child_peers E filename file seedlist wr_ok = some (q, false, file)) ∧
    (peerman_read E (if filename then file else none) = some none →
      network_child_peers E filename file seedlist wr_ok =
        some (peerman_seed seedlist, true,
          (peerman_write E (peerman_seed seedlist) filename file wr_ok).2)) ∧
    (file = none →
      network_child_peers E filename file seedlist wr_ok =
        some (peerman_seed seedlist, true,
          (peerman_write E (peerman_seed seedlist) filename file wr_ok).2)) ∧
    (∀ data, filename = true → file = some data →
      (∃ m ∈ stream_records E (data.length + 1) data, bad_record E m) →
      network_child_peers E filename file seedlist wr_ok =
        some (peerman_seed seedlist, true,
          (peerman_write E (peerman_seed seedlist) filename file wr_ok).2)) := by
  have h2 : peerman_read E (if filename then file else none) = some none →
      network_child_peers E filename file seedlist wr_ok =
        some (peerman_seed seedlist, true,
          (peerman_write E (peerman_seed seedlist) filename file wr_ok).2) := by
    intro h
    simp [network_child_peers, h]
  refine ⟨?_, h2, ?_, ?_⟩
  · intro q h
    simp [network_child_peers, h]
  · intro hf
    apply h2
    subst hf
    cases filename <;> rfl
  · intro data hfn hf hbad
    apply h2
    subst hfn hf
    exact read_loop_bad E (data.length + 1) data peerman_new hbad

/-- Witness for C18: no peers file, and a peers file whose second record has
the command `verack`; the seed list is `[addrB]`. -/
theorem seed_fallback_witness :
    network_child_peers wire true none [addrB] true =
      some (peerman_seed [addrB], true,
        (peerman_write wire (peerman_seed [addrB]) true none true).2) ∧
    network_child_peers wire true (some (padded_record addrA ++ foreign_record)) [addrB] true =
      some (peerman_seed [addrB], true,
        (peerman_write wire (peerman_seed [addrB]) true
          (some (padded_record addrA ++ foreign_record)) true).2) :=
  ⟨(seed_fallback wire true none [addrB] true).2.2.1 rfl,
   (seed_fallback wire true (some (padded_record addrA ++ foreign_record)) [addrB] true).2.2.2
     (padded_record addrA ++ foreign_record) rfl rfl
     ⟨{ hdr := wire_parse_message_hdr foreign_record, data := [] }, by decide,
       Or.inl (by decide)⟩⟩

/-- C18 as stated fails: the peers file exists, its first record loads and
its second is refused; `peerman_read` returns `NULL`, the worker runs with
the seed book and the peers file now holds the serialized seed book instead
of its former content. -/
theorem seed_fallback_counterexample :
    (peerman_read wire (some (padded_record addrA))).map
      (fun r => r.map (fun p => p.addrlist)) = some (some [addrA]) ∧
    peerman_read wire (some (padded_record addrA ++ foreign_record)) = some none ∧
    (network_child_peers wire true (some (padded_record addrA ++ foreign_record))
      [addrB] true).map (fun r => (r.1.addrlist, r.2.1)) = some ([addrB], true) ∧
    (network_child_peers wire true (some (padded_record addrA ++ foreign_record))
      [addrB] true).map (fun r => r.2.2) = some (ser_peerman wire (peerman_seed [addrB])) ∧
    ser_peerman wire (peerman_seed [addrB]) ≠ some (padded_record addrA ++ foreign_record) := by
  decide

/-! ## Gossip and unknown commands (`net.c`) -/

theorem cstr_addr : cstr "addr" = [97, 100, 100, 114] := by decide

theorem addr_not_version (c : Bytes) (h : strncmp c (cstr "addr") 12 = 0) :
    strncmp c (cstr "version") 12 ≠ 0 := by
  intro h2
  rw [cstr_addr] at h
  rw [cstr_version] at h2
  obtain ⟨ha, _⟩ := strncmp_cons_zero _ _ _ _ (by decide) h
  obtain ⟨hb, _⟩ := strncmp_cons_zero _ _ _ _ (by decide) h2
  rw [ha] at hb
  exact absurd hb (by decide)

theorem addr_not_verack (c : Bytes) (h : strncmp c (cstr "addr") 12 = 0) :
    strncmp c (cstr "verack") 12 ≠ 0 := by
  intro h2
  rw [cstr_addr] at h
  rw [cstr_verack] at h2
  obtain ⟨ha, _⟩ := strncmp_cons_zero _ _ _ _ (by decide) h
  obtain ⟨hb, _⟩ := strncmp_cons_zero _ _ _ _ (by decide) h2
  rw [ha] at hb
  exact absurd hb (by decide)

/-- C15: on an established connection an `addr` message whose body decodes to
`addrs` is accepted; the address book becomes the result of
`peerman_add(book, a, false)` for each address in order when
`protover >= CADDR_TIME_VERSION`, and stays as it was when `protover` is
smaller.  When the body does not decode the message is rejected and the book
is unchanged.  The connection itself is not changed in any case. -/
theorem addr_gossip (E : ccoin) (conn : nc_conn) (w : net_world) (wrc : sys_write)
    (hmagic : memcmp_eq conn.msg.hdr.netmagic E.netmagic 4 = true)
    (hcmd : strncmp conn.msg.hdr.command (cstr "addr") 12 = 0)
    (hv : conn.seen_version = true) (hk : conn.seen_verack = true) :
    (∀ addrs, E.deser_msg_addr conn.protover (conn.msg.data.take conn.msg.hdr.data_len)
        = some addrs →
      (conn.protover ≥ E.CADDR_TIME_VERSION →
        nc_conn_message E conn w wrc =
          (true, conn,
            { w with
              peers := peerman_add_calls w.peers (addrs.map (fun a => (a, false))) })) ∧
      (conn.protover < E.CADDR_TIME_VERSION →
        nc_conn_message E conn w wrc = (true, conn, w))) ∧
    (E.deser_msg_addr conn.protover (conn.msg.data.take conn.msg.hdr.data_len) = none →
      nc_conn_message E conn w wrc = (false, conn, w) ∧
      nc_conn_got_msg E conn w wrc = (none, w)) := by
  have hm : nc_conn_message E conn w wrc = nc_msg_addr E conn w := by
    simp [nc_conn_message, hmagic, addr_not_version _ hcmd, addr_not_verack _ hcmd, hv, hk, hcmd]
  have hfold : ∀ (l : List bp_address) (p : peer_manager),
      l.foldl (fun p a => peerman_add p a false) p =
        peerman_add_calls p (l.map (fun a => (a, false))) := by
    intro l
    induction l with
    | nil => intro p; rfl
    | cons a l ih => intro p; simp only [List.foldl_cons, List.map_cons, peerman_add_calls] at ih ⊢; exact ih _
  refine ⟨?_, ?_⟩
  · intro addrs hd
    refine ⟨?_, ?_⟩
    · intro hp
      have hp2 : ¬ conn.protover < E.CADDR_TIME_VERSION := by omega
      rw [hm]
      simp only [nc_msg_addr, hd, hp2, if_false, hfold]
    · intro hp
      rw [hm]
      simp only [nc_msg_addr, hd, hp, if_true]
  · intro hd
    have h1 : nc_conn_message E conn w wrc = (false, conn, w) := by
      rw [hm]; simp only [nc_msg_addr, hd]
    refine ⟨h1, ?_⟩
    unfold nc_conn_got_msg
    by_cases hvld : E.message_valid conn.msg = true
    · simp [hvld, h1]
    · simp [hvld]

/-- Witness for C15: an `addr` body of the sample codec carrying `addrB` and
`addrC`, on an established connection with protocol version 60002. -/
theorem addr_gossip_witness :
    nc_conn_message wire
      (with_msg { connB_versioned with seen_verack := true } (cstr "addr")
        ([2] ++ wire_ser_bp_addr 60002 addrB ++ wire_ser_bp_addr 60002 addrC))
      (world0 bookA []) (.wrote 0) =
      (true,
        with_msg { connB_versioned with seen_verack := true } (cstr "addr")
          ([2] ++ wire_ser_bp_addr 60002 addrB ++ wire_ser_bp_addr 60002 addrC),
        { world0 bookA [] with
          peers := peerman_add_calls (world0 bookA []).peers
                     ([addrB, addrC].map (fun a => (a, false))) }) ∧
    (peerman_add_calls bookA ([addrB, addrC].map (fun a => (a, false)))).addrlist =
      [addrC, addrB, addrA] :=
  ⟨((addr_gossip wire
      (with_msg { connB_versioned with seen_verack := true } (cstr "addr")
        ([2] ++ wire_ser_bp_addr 60002 addrB ++ wire_ser_bp_addr 60002 addrC))
      (world0 bookA []) (.wrote 0) (by decide) (by decide) (by decide) (by decide)).1
        [addrB, addrC] (by decide)).1 (by decide),
   by decide⟩

/-- C16: a message with the right magic whose command is neither `version`
nor `verack` is rejected, and the connection freed, while `seen_version` or
`seen_verack` is false; with both set and a command other than `addr` it is
accepted and neither the connection (handshake flags, `protover`, write
queue) nor the world (address book, sends) changes. -/
theorem other_commands (E : ccoin) (conn : nc_conn) (w : net_world) (wrc : sys_write)
    (hmagic : memcmp_eq conn.msg.hdr.netmagic E.netmagic 4 = true)
    (h1 : strncmp conn.msg.hdr.command (cstr "version") 12 ≠ 0)
    (h2 : strncmp conn.msg.hdr.command (cstr "verack") 12 ≠ 0) :
    ((conn.seen_version = false ∨ conn.seen_verack = false) →
      nc_conn_message E conn w wrc = (false, conn, w) ∧
      nc_conn_got_msg E conn w wrc = (none, w)) ∧
    (conn.seen_version = true → conn.seen_verack = true →
      strncmp conn.msg.hdr.command (cstr "addr") 12 ≠ 0 →
      nc_conn_message E conn w wrc = (true, conn, w)) := by
  refine ⟨?_, ?_⟩
  · intro hf
    have hm : nc_conn_message E conn w wrc = (false, conn, w) := by
      rcases hf with hf | hf
      · simp [nc_conn_message, hmagic, h1, hf]
      · by_cases hsv : conn.seen_version = true
        · simp [nc_conn_message, hmagic, h1, h2, hsv, hf]
        · simp [nc_conn_message, hmagic, h1, hsv]
    refine ⟨hm, ?_⟩
    unfold nc_conn_got_msg
    by_cases hvld : E.message_valid conn.msg = true
    · simp [hvld, hm]
    · simp [hvld]
  · intro hv hk h3
    simp [nc_conn_message, hmagic, h1, h2, h3, hv, hk]

/-- Witness for C16: a `ping` before the handshake is done, and a `ping` on an
established connection. -/
theorem other_commands_witness :
    (nc_conn_message wire (with_msg connB_versioned (cstr "ping") [1, 2, 3, 4, 5, 6, 7, 8])
        (world0 bookA []) (.wrote 0) =
      (false, with_msg connB_versioned (cstr "ping") [1, 2, 3, 4, 5, 6, 7, 8],
        world0 bookA []) ∧
      nc_conn_got_msg wire (with_msg connB_versioned (cstr "ping") [1, 2, 3, 4, 5, 6, 7, 8])
        (world0 bookA []) (.wrote 0) = (none, world0 bookA [])) ∧
    nc_conn_message wire
      (with_msg { connB_versioned with seen_verack := true } (cstr "ping")
        [1, 2, 3, 4, 5, 6, 7, 8]) (world0 bookA []) (.wrote 0) =
      (true, with_msg { connB_versioned with seen_verack := true } (cstr "ping")
        [1, 2, 3, 4, 5, 6, 7, 8], world0 bookA []) :=
  ⟨(other_commands wire (with_msg connB_versioned (cstr "ping") [1, 2, 3, 4, 5, 6, 7, 8])
      (world0 bookA []) (.wrote 0) (by decide) (by decide) (by decide)).1
      (Or.inr (by decide)),
   (other_commands wire
      (with_msg { connB_versioned with seen_verack := true } (cstr "ping")
        [1, 2, 3, 4, 5, 6, 7, 8]) (world0 bookA []) (.wrote 0)
      (by decide) (by decide) (by decide)).2 (by decide) (by decide) (by decide)⟩

/-! ## The control pipe (`net.c`) -/

theorem readcmd_worker_ready (r : pipe_read) (t : Nat) (hf : r.poll_fails = false)
    (ht : r.ready_ms = some t) (hr : r.rrc = 1) : readcmd 0 r = some r.v := by
  simp [readcmd, sys_poll, readcmd_poll_timeout, hf, ht, hr]

theorem readcmd_failed (timeout_secs : Int) (r : pipe_read)
    (h : r.poll_fails = true ∨ (r.ready_ms ≠ none ∧ r.rrc ≠ 1)) :
    readcmd timeout_secs r = some NC_ERR ∨ readcmd timeout_secs r = some NC_TIMEOUT := by
  unfold readcmd sys_poll
  by_cases hf : r.poll_fails = true
  · simp [hf]
  · have hr : r.rrc ≠ 1 := by
      rcases h with h | h
      · exact absurd h hf
      · exact h.2
    have hn : r.ready_ms ≠ none := by
      rcases h with h | h
      · exact absurd h hf
      · exact h.1
    cases ht : r.ready_ms with
    | none => exact absurd ht hn
    | some t =>
      simp only [hf, Bool.false_eq_true, if_false]
      by_cases hc : readcmd_poll_timeout timeout_secs < 0 ∨
          (t : Int) ≤ readcmd_poll_timeout timeout_secs
      · rw [if_pos hc]
        by_cases h3 : r.rrc < 0
        · simp [h3]
        · simp [h3, hr]
      · rw [if_neg hc]
        simp

theorem readcmd_controller (r : pipe_read) :
    ∃ ncr, readcmd 60 r = some ncr ∧
      (ncr = NC_OK ↔ (r.poll_fails = false ∧
        ∃ t, r.ready_ms = some t ∧ t ≤ 60000 ∧ r.rrc = 1 ∧ r.v = 0)) := by
  unfold readcmd sys_poll
  have h60 : readcmd_poll_timeout 60 = 60000 := by decide
  rw [h60]
  by_cases hf : r.poll_fails = true
  · refine ⟨NC_ERR, by simp [hf], ?_⟩
    simp [hf, NC_ERR, NC_OK]
  · have hf2 : r.poll_fails = false := by simpa using hf
    cases ht : r.ready_ms with
    | none =>
      refine ⟨NC_TIMEOUT, by simp [hf2], ?_⟩
      simp [NC_TIMEOUT, NC_OK]
    | some t =>
      by_cases hle : t ≤ 60000
      · have hc : (60000 : Int) < 0 ∨ (t : Int) ≤ 60000 := Or.inr (by exact_mod_cast hle)
        by_cases h3 : r.rrc < 0
        · refine ⟨NC_ERR, by simp [hf2, hle, h3], ?_⟩
          have : r.rrc ≠ 1 := by omega
          simp [NC_ERR, NC_OK, this]
        · by_cases h1 : r.rrc = 1
          · refine ⟨r.v, by simp [hf2, hle, h1], ?_⟩
            simp [hf2, hle, h1, NC_OK]
          · refine ⟨NC_ERR, by simp [hf2, hle, h3, h1], ?_⟩
            simp [NC_ERR, NC_OK, h1]
      · have hc : ¬ ((60000 : Int) < 0 ∨ (t : Int) ≤ 60000) := by
          intro h
          rcases h with h | h
          · omega
          · exact hle (by exact_mod_cast h)
        refine ⟨NC_TIMEOUT, by simp [hf2, hle], ?_⟩
        simp [NC_TIMEOUT, NC_OK, hle]

/-- C19: with `NC_OK = 0, NC_ERR = 1, NC_TIMEOUT = 2, NC_START = 3,
NC_STOP = 4`, a byte `b` read by the worker (the pipe readable at some time
`t`, `readcmd(read_fd, 0)` polling without limit) makes `nc_pipe_evt` send
`NC_OK` and go on when `b = 3`, send `NC_OK` and break the loop when
`b = 4`, and `exit(1)` without a reply for any other value; it also exits
without a reply when `poll` or `read` fails, and whenever `readcmd` returns
anything but `NC_START` and `NC_STOP` (`NC_ERR` and `NC_TIMEOUT` among
them).  `sendcmd(NC_OK)` puts the byte 0 on the pipe when the write
succeeds.  `neteng_cmd_exec` always returns, and it returns true exactly
when `poll` does not fail, the reply is readable within 60000 ms of the
call, one byte is read and it is 0. -/
theorem control_pipe (b t : Nat) (wr_ok : Bool) (nc : Nat) (r : pipe_read) :
    (NC_OK = 0 ∧ NC_ERR = 1 ∧ NC_TIMEOUT = 2 ∧ NC_START = 3 ∧ NC_STOP = 4) ∧
    sendcmd NC_OK true = [0] ∧
    (b = 3 →
      nc_pipe_evt { poll_fails := false, ready_ms := some t, rrc := 1, v := b } wr_ok =
        some { reply := sendcmd NC_OK wr_ok, loopbreak := false, exited := none }) ∧
    (b = 4 →
      nc_pipe_evt { poll_fails := false, ready_ms := some t, rrc := 1, v := b } wr_ok =
        some { reply := sendcmd NC_OK wr_ok, loopbreak := true, exited := none }) ∧
    (b ≠ 3 → b ≠ 4 →
      nc_pipe_evt { poll_fails := false, ready_ms := some t, rrc := 1, v := b } wr_ok =
        some { reply := [], loopbreak := false, exited := some 1 }) ∧
    ((r.poll_fails = true ∨ (r.ready_ms ≠ none ∧ r.rrc ≠ 1)) →
      nc_pipe_evt r wr_ok = some { reply := [], loopbreak := false, exited := some 1 }) ∧
    (∀ ncr, readcmd 0 r = some ncr → ncr ≠ NC_START → ncr ≠ NC_STOP →
      nc_pipe_evt r wr_ok = some { reply := [], loopbreak := false, exited := some 1 }) ∧
    (∃ ok, neteng_cmd_exec nc wr_ok r = some (sendcmd nc wr_ok, ok)) ∧
    (neteng_cmd_exec nc wr_ok r = some (sendcmd nc wr_ok, true) ↔
      (r.poll_fails = false ∧
        ∃ t, r.ready_ms = some t ∧ t ≤ 60000 ∧ r.rrc = 1 ∧ r.v = 0)) := by
  have hb : readcmd 0 { poll_fails := false, ready_ms := some t, rrc := 1, v := b } = some b :=
    readcmd_worker_ready _ t rfl rfl rfl
  obtain ⟨ncr, hncr, hiff⟩ := readcmd_controller r
  refine ⟨⟨rfl, rfl, rfl, rfl, rfl⟩, rfl, ?_, ?_, ?_, ?_, ?_, ?_, ?_⟩
  · intro h
    subst h
    simp [nc_pipe_evt, hb, NC_START]
  · intro h
    subst h
    simp [nc_pipe_evt, hb, NC_START, NC_STOP]
  · intro h3 h4
    simp [nc_pipe_evt, hb, h3, h4, NC_START, NC_STOP]
  · intro h
    rcases readcmd_failed 0 r h with h | h <;>
      simp [nc_pipe_evt, h, NC_START, NC_STOP, NC_ERR, NC_TIMEOUT]
  · intro x hx h3 h4
    simp [nc_pipe_evt, hx, h3, h4]
  · by_cases hc : ncr = NC_OK
    · exact ⟨true, by simp [neteng_cmd_exec, hncr, hc]⟩
    · exact ⟨false, by simp [neteng_cmd_exec, hncr, hc]⟩
  · rw [← hiff]
    by_cases hc : ncr = NC_OK
    · simp [neteng_cmd_exec, hncr, hc]
    · simp [neteng_cmd_exec, hncr, hc]

/-- Witness for C19: the bytes 3, 4 and 7 on the worker's pipe, a failed
`poll`, and on the controller's side a `START` answered by the byte 0 after
2 s, and one answered after 61 s. -/
theorem control_pipe_witness :
    nc_pipe_evt { poll_fails := false, ready_ms := some 0, rrc := 1, v := 3 } true =
      some { reply := [0], loopbreak := false, exited := none } ∧
    nc_pipe_evt { poll_fails := false, ready_ms := some 0, rrc := 1, v := 4 } true =
      some { reply := [0], loopbreak := true, exited := none } ∧
    nc_pipe_evt { poll_fails := false, ready_ms := some 0, rrc := 1, v := 7 } true =
      some { reply := [], loopbreak := false, exited := some 1 } ∧
    nc_pipe_evt { poll_fails := true, ready_ms := none, rrc := 0, v := 3 } true =
      some { reply := [], loopbreak := false, exited := some 1 } ∧
    neteng_cmd_exec NC_START true
        { poll_fails := false, ready_ms := some 2000, rrc := 1, v := 0 } =
      some ([3], true) ∧
    neteng_cmd_exec NC_START true
        { poll_fails := false, ready_ms := some 61000, rrc := 1, v := 0 } ≠
      some ([3], true) :=
  have h := control_pipe 7 0 true NC_START
    { poll_fails := false, ready_ms := some 2000, rrc := 1, v := 0 }
  have h0 := control_pipe 3 0 true NC_START
    { poll_fails := true, ready_ms := none, rrc := 0, v := 3 }
  have h3 := control_pipe 3 0 true NC_START
    { poll_fails := false, ready_ms := some 61000, rrc := 1, v := 0 }
  have h4 := control_pipe 4 0 true NC_START
    { poll_fails := false, ready_ms := some 2000, rrc := 1, v := 0 }
  ⟨h3.2.2.1 rfl, h4.2.2.2.1 rfl, h.2.2.2.2.1 (by decide) (by decide),
   h0.2.2.2.2.2.1 (Or.inl rfl),
   h.2.2.2.2.2.2.2.2.2 ⟨rfl, 2000, rfl, by decide, rfl, rfl⟩,
   fun hc => absurd (h3.2.2.2.2.2.2.2.2.1 hc) (by decide)⟩

/-! ## Opening connections (`net.c`) -/

/-- On the out-of-sync book that `peerman_seed` builds from a seed list
repeating an IP, the first pop empties the membership set, so the loop stops
although the sequence still holds an entry and no connection was opened. -/
theorem conns_open_seed_repeats :
    (peerman_seed [addrA, addrA2]).addrlist = [addrA2, addrA] ∧
    nc_conns_open connect_flaky { peers := peerman_seed [addrA, addrA2], conns := [] } =
      some ({ peers := { map_addr := [], addrlist := [addrA] }, conns := [] }, [addrA2]) := by
  decide

/-! ## The write queue: bookkeeping of written bytes (`net.c`) -/

theorem left_no_wrap (len p : Nat) (hp : p ≤ len) (hl : len < 2 ^ 32) :
    (len + 2 ^ 32 - p % 2 ^ 32) % 2 ^ 32 = len - p := by
  norm_num at hl ⊢
  omega

theorem drop_flatten_cons (buf : Bytes) (rest : List Bytes) (p : Nat) (hp : p ≤ buf.length) :
    (buf :: rest).flatten.drop p = buf.drop p ++ rest.flatten := by
  rw [List.flatten_cons, List.drop_append_of_le_length hp]

theorem written_loop_spec (q : List Bytes) (p b : Nat)
    (h32 : ∀ buf ∈ q, buf.length < 2 ^ 32)
    (hfirst : ∀ buf rest, q = buf :: rest → p ≤ buf.length)
    (hb : b ≤ (q.flatten.drop p).length) :
    ∃ q1 p1 k, nc_conn_written_loop q p b = some (q1, p1) ∧ q1 = q.drop k ∧
      p + b = (q.take k).flatten.length + p1 ∧
      q1.flatten.drop p1 = (q.flatten.drop p).drop b ∧
      (∀ buf rest, q1 = buf :: rest → p1 ≤ buf.length) ∧
      ((q = [] → p = 0) → q1 = [] → p1 = 0) ∧
      ((∀ buf ∈ q, 0 < buf.length) → (∀ buf rest, q = buf :: rest → p < buf.length) →
        ∀ buf rest, q1 = buf :: rest → p1 < buf.length) := by
  induction q generalizing p b with
  | nil =>
    have hb0 : b = 0 := by simpa using hb
    subst hb0
    refine ⟨[], p, 0, by simp [nc_conn_written_loop], rfl, by simp, by simp, ?_, ?_, ?_⟩
    · intro buf rest h; exact absurd h (by simp)
    · intro h _; exact h rfl
    · intro _ _ buf rest h; exact absurd h (by simp)
  | cons buf rest ih =>
    have hp := hfirst buf rest rfl
    have hlen := h32 buf (List.mem_cons_self _ _)
    cases b with
    | zero =>
      refine ⟨buf :: rest, p, 0, by simp [nc_conn_written_loop], rfl, by simp, by simp,
        hfirst, ?_, ?_⟩
      · intro _ h; exact absurd h (by simp)
      · intro _ h; exact h
    | succ n =>
      have hleft := left_no_wrap buf.length p hp hlen
      have hdrop := drop_flatten_cons buf rest p hp
      by_cases hge : n + 1 ≥ buf.length - p
      · have hb2 : n + 1 - (buf.length - p) ≤ (rest.flatten.drop 0).length := by
          rw [hdrop] at hb
          simp only [List.length_append, List.length_drop, List.drop_zero] at hb ⊢
          omega
        obtain ⟨q1, p1, k, hloop, hq1, hsum, hun, hf1, he1, hs1⟩ :=
          ih 0 (n + 1 - (buf.length - p))
            (fun x hx => h32 x (List.mem_cons_of_mem _ hx))
            (fun x r _ => Nat.zero_le _) hb2
        refine ⟨q1, p1, k + 1, ?_, by simpa using hq1, ?_, ?_, hf1, ?_, ?_⟩
        · simp only [nc_conn_written_loop, hleft]
          rw [if_pos hge]
          exact hloop
        · simp only [List.take_succ_cons, List.flatten_cons, List.length_append]
          omega
        · rw [hun, hdrop, List.drop_zero]
          have hxl : (buf.drop p).length ≤ n + 1 := by
            simp only [List.length_drop]; exact hge
          rw [List.drop_append_eq_append_drop]
          simp only [List.length_drop]
          rw [List.drop_eq_nil_of_le hxl, List.nil_append]
        · intro _ hq1nil
          exact he1 (fun _ => rfl) hq1nil
        · intro hpos _ x r hx
          have hpos2 : ∀ y ∈ rest, 0 < y.length := fun y hy => hpos y (List.mem_cons_of_mem _ hy)
          exact hs1 hpos2 (fun y r2 hy => hpos2 y (by rw [hy]; exact List.mem_cons_self _ _)) x r hx
      · have hlt : p + (n + 1) < buf.length := by omega
        have hmod : (p + (n + 1)) % 2 ^ 32 = p + (n + 1) := by
          norm_num at hlen ⊢
          omega
        refine ⟨buf :: rest, p + (n + 1), 0, ?_, rfl, by simp, ?_, ?_, ?_, ?_⟩
        · simp only [nc_conn_written_loop, hleft]
          rw [if_neg hge, hmod]
        · rw [List.drop_drop]
        · intro x r hx
          simp only [List.cons.injEq] at hx
          rw [← hx.1]; omega
        · intro _ h; exact absurd h (by simp)
        · intro _ _ x r hx
          simp only [List.cons.injEq] at hx
          rw [← hx.1]; exact hlt

theorem written_loop_wraps (buf : Bytes) (rest : List Bytes) (h : buf.length = 2 ^ 32) :
    nc_conn_written_loop (buf :: rest) 0 1 = nc_conn_written_loop rest 0 1 := by
  have hleft : (buf.length + 2 ^ 32 - 0 % 2 ^ 32) % 2 ^ 32 = 0 := by
    rw [h]
    norm_num
  simp only [nc_conn_written_loop, hleft]
  simp

theorem iov_rest_bytes (rest : List Bytes) :
    ((build_iov_rest rest).map (fun v => v.iov_base.take v.iov_len)).flatten = rest.flatten := by
  induction rest with
  | nil => rfl
  | cons b r ih =>
    simp only [build_iov_rest, List.map_cons, List.flatten_cons, List.take_length] at ih ⊢
    rw [ih]

theorem iov_bytes_unsent (q : List Bytes) (p : Nat)
    (h32 : ∀ buf ∈ q, buf.length < 2 ^ 32)
    (hfirst : ∀ buf rest, q = buf :: rest → p ≤ buf.length) :
    iov_bytes (nc_conn_build_iov q p) = q.flatten.drop p := by
  cases q with
  | nil => simp [nc_conn_build_iov, iov_bytes]
  | cons buf rest =>
    have hp := hfirst buf rest rfl
    have hl := h32 buf (List.mem_cons_self _ _)
    have hlen : (buf.length + 2 ^ 64 - p % 2 ^ 64) % 2 ^ 64 = buf.length - p := by
      norm_num at hl ⊢
      omega
    rw [drop_flatten_cons buf rest p hp]
    simp only [nc_conn_build_iov, iov_bytes, List.map_cons, List.flatten_cons, hlen]
    rw [iov_rest_bytes]
    congr 1
    apply List.take_of_length_le
    simp

theorem send_nonempty (E : ccoin) (conn : nc_conn) (w : net_world) (command data buf : Bytes)
    (wrc : sys_write) (hm : E.message_str E.netmagic command data = some buf)
    (hq : conn.write_q ≠ []) :
    nc_conn_send E conn w command data wrc =
      (true, { conn with write_q := conn.write_q ++ [buf] },
        { w with sends := w.sends ++ [(command, data)] }) := by
  have : conn.write_q.isEmpty = false := by
    cases hc : conn.write_q with
    | nil => exact absurd hc hq
    | cons a l => rfl
  simp [nc_conn_send, hm, this]

theorem send_again (E : ccoin) (conn : nc_conn) (w : net_world) (command data buf : Bytes)
    (hm : E.message_str E.netmagic command data = some buf) (hq : conn.write_q = []) :
    ∃ b l, nc_conn_send E conn w command data .again =
      (true, { conn with write_q := [buf], ev := false, write_ev := b },
        { w with sends := w.sends ++ [(command, data)], evreg := l }) ∧
      (w.evreg = [] → b = true ∧ l = []) := by
  obtain ⟨b, l, h, hok⟩ := out_wrstart_frame { conn with write_q := [buf] }
    { w with sends := w.sends ++ [(command, data)] }
  refine ⟨b, l, ?_, hok⟩
  simp only [nc_conn_send, hm, hq, List.isEmpty_nil, Bool.not_true, Bool.false_eq_true,
    if_false, List.nil_append]
  rw [h]

theorem send_full (E : ccoin) (conn : nc_conn) (w : net_world) (command data buf : Bytes)
    (hm : E.message_str E.netmagic command data = some buf) (hq : conn.write_q = []) :
    nc_conn_send E conn w command data (.wrote buf.length) =
      (true, conn, { w with sends := w.sends ++ [(command, data)], tx := w.tx ++ buf }) := by
  simp [nc_conn_send, hm, hq]

theorem send_part (E : ccoin) (conn : nc_conn) (w : net_world) (command data buf : Bytes)
    (n : Nat) (hm : E.message_str E.netmagic command data = some buf)
    (hq : conn.write_q = []) (hn : n < buf.length) (hl : buf.length < 2 ^ 32) :
    ∃ b l, nc_conn_send E conn w command data (.wrote n) =
      (true, { conn with write_q := [buf], write_partial := n, ev := false, write_ev := b },
        { w with sends := w.sends ++ [(command, data)], tx := w.tx ++ buf.take n,
                 evreg := l }) ∧
      (w.evreg = [] → b = true ∧ l = []) := by
  have hne : n ≠ buf.length := by omega
  have hmod : n % 2 ^ 32 = n := Nat.mod_eq_of_lt (by omega)
  obtain ⟨b, l, h, hok⟩ := out_wrstart_frame { conn with write_q := [buf], write_partial := n }
    { w with sends := w.sends ++ [(command, data)], tx := w.tx ++ buf.take n }
  refine ⟨b, l, ?_, hok⟩
  simp only [nc_conn_send, hm, hq, List.isEmpty_nil, Bool.not_true, Bool.false_eq_true,
    if_false, List.nil_append, hne, hmod]
  rw [h]

theorem write_evt_wrote (conn : nc_conn) (w : net_world) (n : Nat)
    (h32 : ∀ buf ∈ conn.write_q, buf.length < 2 ^ 32)
    (hfirst : ∀ buf rest, conn.write_q = buf :: rest → conn.write_partial ≤ buf.length)
    (hn : n ≤ (unsent conn).length) :
    ∃ q1 p1 k b l, nc_conn_written_loop conn.write_q conn.write_partial n = some (q1, p1) ∧
      q1 = conn.write_q.drop k ∧
      q1.flatten.drop p1 = (unsent conn).drop n ∧
      (∀ buf rest, q1 = buf :: rest → p1 ≤ buf.length) ∧
      ((conn.write_q = [] → conn.write_partial = 0) → q1 = [] → p1 = 0) ∧
      ((∀ buf ∈ conn.write_q, 0 < buf.length) →
        (∀ buf rest, conn.write_q = buf :: rest → conn.write_partial < buf.length) →
        ∀ buf rest, q1 = buf :: rest → p1 < buf.length) ∧
      nc_conn_write_evt conn w (.wrote n) =
        some (some (if q1 = [] then
            { conn with write_q := q1, write_partial := p1, ev := b, write_ev := false }
          else { conn with write_q := q1, write_partial := p1 }),
          { w with tx := w.tx ++ (unsent conn).take n, evreg := l }) ∧
      (w.evreg = [] → b = true ∧ l = []) := by
  obtain ⟨q1, p1, k, hloop, hq1, _, hun, hf1, he1, hs1⟩ :=
    written_loop_spec conn.write_q conn.write_partial n h32 hfirst hn
  have hiov := iov_bytes_unsent conn.write_q conn.write_partial h32 hfirst
  by_cases hq : q1 = []
  · obtain ⟨b, l, h, hok⟩ := read_enable_frame
      (nc_conn_write_disable { conn with write_q := q1, write_partial := p1 })
      { w with tx := w.tx ++ (unsent conn).take n }
    refine ⟨q1, p1, k, b, l, hloop, hq1, hun, hf1, he1, hs1, ?_, hok⟩
    unfold nc_conn_write_evt nc_conn_written
    simp only [hloop, hiov]
    subst hq
    simp only [List.isEmpty_nil, if_true]
    have h1 := congrArg Prod.fst h
    have h2 := congrArg Prod.snd h
    simp only [unsent] at h1 h2 ⊢
    rw [h1, h2]
    rfl
  · refine ⟨q1, p1, k, true, w.evreg, hloop, hq1, hun, hf1, he1, hs1, ?_, fun h => ⟨rfl, h⟩⟩
    have : q1.isEmpty = false := by
      cases hc : q1 with
      | nil => exact absurd hc hq
      | cons a l => rfl
    unfold nc_conn_write_evt nc_conn_written
    simp [hloop, hiov, this, hq, unsent]

theorem unsent_append (q : List Bytes) (p : Nat) (buf : Bytes)
    (hfirst : ∀ x rest, q = x :: rest → p ≤ x.length) (hq : q ≠ []) :
    (q ++ [buf]).flatten.drop p = q.flatten.drop p ++ buf := by
  cases q with
  | nil => exact absurd rfl hq
  | cons x rest =>
    have hp := hfirst x rest rfl
    have hle : p ≤ (x :: rest).flatten.length := by
      simp only [List.flatten_cons, List.length_append]; omega
    simp only [List.flatten_append, List.flatten_cons, List.flatten_nil, List.append_nil]
    rw [List.drop_append_of_le_length (by simpa using hle)]

theorem wq_step_spec (E : ccoin) (conn : nc_conn) (w : net_world) (e : wq_event)
    (hfit : sends_fit E [e] = true) (hinv : wq_inv conn)
    (hok : event_ok E (conn, w) e = true) :
    ∃ c1 w1 t, wq_step E (conn, w) e = some (c1, w1) ∧ wq_inv c1 ∧
      w1.tx = w.tx ++ t ∧ t ++ unsent c1 = unsent conn ++ msgs_of E [e] ∧
      (wq_strict conn → sends_nonempty E [e] = true → wq_strict c1) ∧
      (w.evreg = [] → w1.evreg = [] ∧ (wq_events conn → wq_events c1)) := by
  obtain ⟨h32, hfirst, hempty⟩ := hinv
  cases e with
  | send command data wrc =>
    simp only [event_ok] at hok
    cases hm : E.message_str E.netmagic command data with
    | none => rw [hm] at hok; exact absurd hok (by simp)
    | some buf =>
      rw [hm] at hok
      have hl : buf.length < 2 ^ 32 := by
        simpa [sends_fit, hm] using hfit
      have hmsgs : msgs_of E [wq_event.send command data wrc] = buf := by
        simp [msgs_of, hm]
      have hnonempty : sends_nonempty E [wq_event.send command data wrc] = true →
          0 < buf.length := by
        intro h
        simp only [sends_nonempty, hm, Option.getD_some, Bool.and_true,
          Bool.not_eq_true', List.isEmpty_eq_false] at h
        exact List.length_pos.2 h
      rw [hmsgs]
      by_cases hq : conn.write_q = []
      · have hp0 := hempty hq
        have hun0 : unsent conn = [] := by simp [unsent, hq]
        have hwithin : wrc_within wrc buf.length = true := by
          simpa [hq] using hok
        cases wrc with
        | error => simp [wrc_within] at hwithin
        | again =>
          obtain ⟨b, l, hsend, hrg⟩ := send_again E conn w command data buf hm hq
          refine ⟨{ conn with write_q := [buf], ev := false, write_ev := b },
            { w with sends := w.sends ++ [(command, data)], evreg := l }, [],
            by simp [wq_step, hsend],
            ⟨?_, ?_, ?_⟩, by simp, ?_, ?_, ?_⟩
          · intro x hx
            simp only [List.mem_singleton] at hx
            rw [hx]; exact hl
          · intro x r hx
            simp only [List.cons.injEq] at hx
            show conn.write_partial ≤ x.length
            omega
          · intro hx; exact absurd hx (by simp)
          · show [] ++ [buf].flatten.drop conn.write_partial = unsent conn ++ buf
            rw [hun0, hp0]
            simp
          · intro _ hne
            refine ⟨?_, ?_⟩
            · intro x hx
              simp only [List.mem_singleton] at hx
              rw [hx]; exact hnonempty hne
            · intro x r hx
              simp only [List.cons.injEq] at hx
              show conn.write_partial < x.length
              rw [hp0, ← hx.1]; exact hnonempty hne
          · intro hr
            refine ⟨(hrg hr).2, fun _ => ⟨?_, ?_⟩⟩
            · show b = true ↔ [buf] ≠ []
              simp [(hrg hr).1]
            · show false = true ↔ [buf] = []
              simp
        | wrote n =>
          have hn : n ≤ buf.length := by simpa [wrc_within] using hwithin
          by_cases hfull : n = buf.length
          · subst hfull
            refine ⟨conn,
              { w with sends := w.sends ++ [(command, data)], tx := w.tx ++ buf }, buf,
              by simp [wq_step, send_full E conn w command data buf hm hq],
              ⟨h32, hfirst, hempty⟩, rfl, by simp [hun0], fun hs _ => hs,
              fun hr => ⟨hr, fun he => he⟩⟩
          · have hlt : n < buf.length := by omega
            obtain ⟨b, l, hsend, hrg⟩ := send_part E conn w command data buf n hm hq hlt hl
            refine ⟨{ conn with write_q := [buf], write_partial := n, ev := false,
                                write_ev := b },
              { w with sends := w.sends ++ [(command, data)], tx := w.tx ++ buf.take n,
                       evreg := l },
              buf.take n,
              by simp [wq_step, hsend],
              ⟨?_, ?_, ?_⟩, rfl, ?_, ?_, ?_⟩
            · intro x hx
              simp only [List.mem_singleton] at hx
              rw [hx]; exact hl
            · intro x r hx
              simp only [List.cons.injEq] at hx
              show n ≤ x.length
              rw [← hx.1]; omega
            · intro hx; exact absurd hx (by simp)
            · show buf.take n ++ [buf].flatten.drop n = unsent conn ++ buf
              rw [hun0]
              simp
            · intro _ hne
              refine ⟨?_, ?_⟩
              · intro x hx
                simp only [List.mem_singleton] at hx
                rw [hx]; exact hnonempty hne
              · intro x r hx
                simp only [List.cons.injEq] at hx
                show n < x.length
                rw [← hx.1]; exact hlt
            · intro hr
              refine ⟨(hrg hr).2, fun _ => ⟨?_, ?_⟩⟩
              · show b = true ↔ [buf] ≠ []
                simp [(hrg hr).1]
              · show false = true ↔ [buf] = []
                simp
      · refine ⟨{ conn with write_q := conn.write_q ++ [buf] },
          { w with sends := w.sends ++ [(command, data)] }, [],
          by simp [wq_step, send_nonempty E conn w command data buf wrc hm hq],
          ⟨?_, ?_, ?_⟩, by simp, ?_, ?_, ?_⟩
        · intro x hx
          rcases List.mem_append.1 hx with hx | hx
          · exact h32 x hx
          · simp only [List.mem_singleton] at hx
            rw [hx]; exact hl
        · intro x r hx
          cases hc : conn.write_q with
          | nil => exact absurd hc hq
          | cons y l =>
            rw [show ({ conn with write_q := conn.write_q ++ [buf] } : nc_conn).write_q =
              conn.write_q ++ [buf] from rfl, hc] at hx
            simp only [List.cons_append, List.cons.injEq] at hx
            rw [← hx.1]
            exact hfirst y l hc
        · intro hx
          simp at hx
        · simp only [List.nil_append]
          exact unsent_append conn.write_q conn.write_partial buf hfirst hq
        · rintro ⟨hpos, hsf⟩ hne
          refine ⟨?_, ?_⟩
          · intro x hx
            rcases List.mem_append.1 hx with hx | hx
            · exact hpos x hx
            · simp only [List.mem_singleton] at hx
              rw [hx]; exact hnonempty hne
          · intro x r hx
            cases hc : conn.write_q with
            | nil => exact absurd hc hq
            | cons y l =>
              rw [show ({ conn with write_q := conn.write_q ++ [buf] } : nc_conn).write_q =
                conn.write_q ++ [buf] from rfl, hc] at hx
              simp only [List.cons_append, List.cons.injEq] at hx
              rw [← hx.1]
              exact hsf y l hc
        · intro hr
          refine ⟨hr, ?_⟩
          rintro ⟨hwe, hev⟩
          refine ⟨?_, ?_⟩
          · show conn.write_ev = true ↔ conn.write_q ++ [buf] ≠ []
            rw [hwe]
            simp [hq]
          · show conn.ev = true ↔ conn.write_q ++ [buf] = []
            rw [hev]
            simp [hq]
  | write_ready wrc =>
    simp only [event_ok] at hok
    rw [iov_bytes_unsent conn.write_q conn.write_partial h32 hfirst] at hok
    have hmsgs : msgs_of E [wq_event.write_ready wrc] = [] := rfl
    rw [hmsgs]
    cases wrc with
    | error => simp [wrc_within] at hok
    | again =>
      exact ⟨conn, w, [], rfl, ⟨h32, hfirst, hempty⟩, by simp, by simp, fun hs _ => hs,
        fun hr => ⟨hr, fun he => he⟩⟩
    | wrote n =>
      have hn : n ≤ (unsent conn).length := by simpa [wrc_within, unsent] using hok
      obtain ⟨q1, p1, k, b, l, _, hq1, hun, hf1, he1, hs1, hevt, hrg⟩ :=
        write_evt_wrote conn w n h32 hfirst hn
      have hsub : ∀ x ∈ q1, x ∈ conn.write_q := by
        intro x hx
        rw [hq1] at hx
        exact List.mem_of_mem_drop hx
      by_cases hq : q1 = []
      · rw [if_pos hq] at hevt
        have hp1 := he1 hempty hq
        refine ⟨{ conn with write_q := q1, write_partial := p1, ev := b, write_ev := false },
          { w with tx := w.tx ++ (unsent conn).take n, evreg := l },
          (unsent conn).take n, by simp [wq_step, hevt],
          ⟨?_, ?_, ?_⟩, rfl, ?_, ?_, ?_⟩
        · intro x hx; exact h32 x (hsub x hx)
        · exact hf1
        · intro _; exact hp1
        · show (unsent conn).take n ++ q1.flatten.drop p1 = unsent conn ++ []
          rw [hun, List.take_append_drop, List.append_nil]
        · rintro ⟨hpos, hsf⟩ _
          exact ⟨fun x hx => hpos x (hsub x hx), hs1 hpos hsf⟩
        · intro hr
          refine ⟨(hrg hr).2, fun _ => ⟨?_, ?_⟩⟩
          · show false = true ↔ q1 ≠ []
            simp [hq]
          · show b = true ↔ q1 = []
            simp [hq, (hrg hr).1]
      · rw [if_neg hq] at hevt
        refine ⟨{ conn with write_q := q1, write_partial := p1 },
          { w with tx := w.tx ++ (unsent conn).take n, evreg := l },
          (unsent conn).take n, by simp [wq_step, hevt],
          ⟨?_, ?_, ?_⟩, rfl, ?_, ?_, ?_⟩
        · intro x hx; exact h32 x (hsub x hx)
        · exact hf1
        · intro hx; exact absurd hx hq
        · show (unsent conn).take n ++ q1.flatten.drop p1 = unsent conn ++ []
          rw [hun, List.take_append_drop, List.append_nil]
        · rintro ⟨hpos, hsf⟩ _
          exact ⟨fun x hx => hpos x (hsub x hx), hs1 hpos hsf⟩
        · intro hr
          refine ⟨(hrg hr).2, ?_⟩
          rintro ⟨hwe, hev⟩
          have hqne : conn.write_q ≠ [] := by
            intro hc
            rw [hc] at hq1
            simp at hq1
            exact hq hq1
          refine ⟨?_, ?_⟩
          · show conn.write_ev = true ↔ q1 ≠ []
            rw [hwe]
            simp [hq, hqne]
          · show conn.ev = true ↔ q1 = []
            rw [hev]
            simp [hq, hqne]

theorem msgs_of_cons (E : ccoin) (e : wq_event) (es : List wq_event) :
    msgs_of E (e :: es) = msgs_of E [e] ++ msgs_of E es := by
  cases e <;> simp [msgs_of]

theorem sends_nonempty_cons (E : ccoin) (e : wq_event) (es : List wq_event) :
    sends_nonempty E (e :: es) = (sends_nonempty E [e] && sends_nonempty E es) := by
  cases e <;> simp [sends_nonempty]

theorem sends_fit_cons (E : ccoin) (e : wq_event) (es : List wq_event) :
    sends_fit E (e :: es) = (sends_fit E [e] && sends_fit E es) := by
  cases e <;> simp [sends_fit]

theorem wq_run_spec (E : ccoin) (events : List wq_event) (conn : nc_conn) (w : net_world)
    (hfit : sends_fit E events = true) (hinv : wq_inv conn)
    (hadm : wq_admissible E (conn, w) events = true) :
    ∃ c1 w1 t, wq_run E (conn, w) events = some (c1, w1) ∧ wq_inv c1 ∧
      w1.tx = w.tx ++ t ∧ t ++ unsent c1 = unsent conn ++ msgs_of E events ∧
      (wq_strict conn → sends_nonempty E events = true → wq_strict c1) ∧
      (w.evreg = [] → w1.evreg = [] ∧ (wq_events conn → wq_events c1)) := by
  induction events generalizing conn w with
  | nil =>
    exact ⟨conn, w, [], rfl, hinv, by simp, by simp [msgs_of], fun hs _ => hs,
      fun hr => ⟨hr, fun he => he⟩⟩
  | cons e es ih =>
    rw [sends_fit_cons, Bool.and_eq_true] at hfit
    simp only [wq_admissible, Bool.and_eq_true] at hadm
    obtain ⟨c1, w1, t1, hstep, hinv1, htx1, hun1, hst1, hev1⟩ :=
      wq_step_spec E conn w e hfit.1 hinv hadm.1
    have hadm2 : wq_admissible E (c1, w1) es = true := by
      have := hadm.2
      rw [hstep] at this
      exact this
    obtain ⟨c2, w2, t2, hrun, hinv2, htx2, hun2, hst2, hev2⟩ := ih c1 w1 hfit.2 hinv1 hadm2
    refine ⟨c2, w2, t1 ++ t2, ?_, hinv2, ?_, ?_, ?_, ?_⟩
    · simp only [wq_run, hstep]
      exact hrun
    · rw [htx2, htx1, List.append_assoc]
    · rw [msgs_of_cons E e es, List.append_assoc, hun2, ← List.append_assoc, hun1,
        List.append_assoc]
    · intro hs hne
      rw [sends_nonempty_cons, Bool.and_eq_true] at hne
      exact hst2 (hst1 hs hne.1) hne.2
    · intro hr
      exact ⟨(hev2 (hev1 hr).1).1, fun he => (hev2 (hev1 hr).1).2 ((hev1 hr).2 he)⟩

/-- C22: start from a connection with an empty write queue (and
`write_partial = 0`), and apply any sequence of `nc_conn_send` calls and
write-ready events in which the transport takes between 0 and the offered
number of bytes each time and every message is shorter than `2^32` bytes.
Then no step fails, the socket has received the bytes it had before followed
by some bytes `t`, and `t` followed by the connection's unsent stream is the
concatenation of the messages sent, in the order of the sends. -/
theorem write_stream_preserved (E : ccoin) (conn : nc_conn) (w : net_world)
    (events : List wq_event) (hq : conn.write_q = []) (hp : conn.write_partial = 0)
    (hfit : sends_fit E events = true)
    (hadm : wq_admissible E (conn, w) events = true) :
    ∃ c1 w1 t, wq_run E (conn, w) events = some (c1, w1) ∧
      w1.tx = w.tx ++ t ∧ t ++ unsent c1 = msgs_of E events := by
  have hinv : wq_inv conn := by
    refine ⟨?_, ?_, fun _ => hp⟩
    · intro buf hb; rw [hq] at hb; exact absurd hb (List.not_mem_nil _)
    · intro buf rest h; rw [hq] at h; exact absurd h (by simp)
  obtain ⟨c1, w1, t, hrun, _, htx, hun, _, _⟩ := wq_run_spec E events conn w hfit hinv hadm
  refine ⟨c1, w1, t, hrun, htx, ?_⟩
  rw [hun]
  simp [unsent, hq]

/-- Witness for C22: a `getaddr` sent in part, a `verack` queued behind it,
and three write events; in the end the socket has both messages in order
and nothing is unsent. -/
theorem write_stream_preserved_witness :
    ∃ c1 w1 t, wq_run wire (connB, world0 bookA []) sample_run = some (c1, w1) ∧
      w1.tx = (world0 bookA []).tx ++ t ∧ t ++ unsent c1 = msgs_of wire sample_run :=
  write_stream_preserved wire connB (world0 bookA []) sample_run (by decide) (by decide)
    (by decide) (by decide)

/-- Every state reached from a freshly connected connection by
`nc_conn_send` calls with non-empty messages (shorter than `2^32` bytes) and
write-ready events, the transport taking between 0 and the offered number of
bytes each time, has `write_partial = 0` when the queue is empty and
`write_partial` strictly below the length of the first queued buffer
otherwise, so that `left = buf->len - write_partial` is the true difference,
whatever becomes of the event registrations.  When every registration
succeeds (`w.evreg = []`), the write event is registered exactly when the
queue is non-empty and the read event exactly when it is empty. -/
theorem write_queue_invariant (E : ccoin) (addr : bp_address) (fd : Int) (w : net_world)
    (events : List wq_event)
    (hfit : sends_fit E events = true)
    (hne : sends_nonempty E events = true)
    (hadm : wq_admissible E (nc_conn_connected E addr fd, w) events = true) :
    ∃ c1 w1, wq_run E (nc_conn_connected E addr fd, w) events = some (c1, w1) ∧
      (c1.write_q = [] → c1.write_partial = 0) ∧
      (∀ buf rest, c1.write_q = buf :: rest →
        c1.write_partial < buf.length ∧
        (buf.length + 2 ^ 32 - c1.write_partial % 2 ^ 32) % 2 ^ 32 =
          buf.length - c1.write_partial) ∧
      (w.evreg = [] →
        (c1.write_ev = true ↔ c1.write_q ≠ []) ∧ (c1.ev = true ↔ c1.write_q = [])) := by
  have hinv : wq_inv (nc_conn_connected E addr fd) := by
    refine ⟨?_, ?_, fun _ => rfl⟩
    · intro buf hb; exact absurd hb (List.not_mem_nil _)
    · intro buf rest h; exact absurd h (by simp [nc_conn_connected])
  have hstrict : wq_strict (nc_conn_connected E addr fd) := by
    refine ⟨?_, ?_⟩
    · intro buf hb; exact absurd hb (List.not_mem_nil _)
    · intro buf rest h; exact absurd h (by simp [nc_conn_connected])
  have hevents : wq_events (nc_conn_connected E addr fd) := by
    refine ⟨?_, ?_⟩
    · simp [nc_conn_connected]
    · simp [nc_conn_connected]
  obtain ⟨c1, w1, _, hrun, hinv1, _, _, hst, hev⟩ :=
    wq_run_spec E events (nc_conn_connected E addr fd) w hfit hinv hadm
  obtain ⟨_, hsf⟩ := hst hstrict hne
  refine ⟨c1, w1, hrun, hinv1.2.2, ?_, fun hr => (hev hr).2 hevents⟩
  intro buf rest h
  have hlt := hsf buf rest h
  have hl : buf.length < 2 ^ 32 := hinv1.1 buf (by rw [h]; exact List.mem_cons_self _ _)
  exact ⟨hlt, left_no_wrap buf.length c1.write_partial (by omega) hl⟩

/-- The sample run and its first three events, from the connection just
connected to `addrB`, every registration succeeding. -/
theorem write_queue_invariant_sample :
    (∃ c1 w1, wq_run wire (nc_conn_connected wire addrB 5, world0 bookA [])
        (sample_run.take 3) = some (c1, w1) ∧
      (c1.write_q = [] → c1.write_partial = 0) ∧
      (∀ buf rest, c1.write_q = buf :: rest →
        c1.write_partial < buf.length ∧
        (buf.length + 2 ^ 32 - c1.write_partial % 2 ^ 32) % 2 ^ 32 =
          buf.length - c1.write_partial) ∧
      ((world0 bookA []).evreg = [] →
        (c1.write_ev = true ↔ c1.write_q ≠ []) ∧ (c1.ev = true ↔ c1.write_q = []))) ∧
    (wq_run wire (nc_conn_connected wire addrB 5, world0 bookA [])
        (sample_run.take 3)).map
      (fun s => (s.1.write_q.length, nc_conn.write_partial s.1, s.1.write_ev, s.1.ev)) =
      some (1, 6, true, false) :=
  ⟨write_queue_invariant wire addrB 5 (world0 bookA []) (sample_run.take 3)
    (by decide) (by decide) (by decide), by decide⟩

/-- C23: the events do not follow the queue when an event registration
fails.  From the connection just connected to `addrB`, with non-empty
messages and the transport taking between 0 and the offered bytes.  First
run: one `getaddr` of which the socket takes 10 bytes, `event_new` for the
write event returning `NULL`: the queue holds one buffer and the write
event is not registered (nor the read event).  Second run: the same send
with the write event registered, then a write event that takes the 14 bytes
left, `event_add` for the read event failing: the queue is empty and the
read event is not registered. -/
theorem write_queue_unregistered :
    sends_nonempty wire sample_stall = true ∧ sends_fit wire sample_stall = true ∧
    wq_admissible wire (nc_conn_connected wire addrB 5, world_evreg bookA [.new_failed])
      (sample_stall.take 1) = true ∧
    (wq_run wire (nc_conn_connected wire addrB 5, world_evreg bookA [.new_failed])
        (sample_stall.take 1)).map
      (fun s => (s.1.write_q.length, nc_conn.write_partial s.1, s.1.write_ev, s.1.ev)) =
      some (1, 10, false, false) ∧
    wq_admissible wire (nc_conn_connected wire addrB 5, world_evreg bookA [.ok, .add_failed])
      sample_stall = true ∧
    (wq_run wire (nc_conn_connected wire addrB 5, world_evreg bookA [.ok, .add_failed])
        sample_stall).map
      (fun s => (s.1.write_q.length, nc_conn.write_partial s.1, s.1.write_ev, s.1.ev)) =
      some (0, 0, false, false) := by
  decide

end Picocoin
